import Mathlib

/-!
# Order-watcher adapters of the 0x launch-kit backend

A shallow embedding of the two order-watcher adapters:

* `MeshAdapter` (`src/ts/src/order_watchers/mesh_adapter.ts`), the adapter that talks to a
  remote Mesh node over a websocket, and
* `OrderWatcherAdapter` (`src/js/order_watchers/order_watcher_adapter.js`), the adapter built
  on a local order watcher with a shadow map.

Conventions of the embedding.

* Numeric order fields (`BigNumber` in the source) are natural numbers, timestamps
  (`Date.now()`) are natural numbers of milliseconds.
* A call that may throw returns `Except String _`, the string being the error's message.
* An `async` method whose loop may poll for ever takes a fuel argument that bounds the number
  of polls of one wait; `none` means the fuel ran out.
* Effects on the outside world (requests sent, owner callbacks invoked, calls into the local
  watcher) are appended to logs kept in the adapter state, so that their number and order can
  be stated.
* Functions of external libraries (`BigNumber.toString`, `orderParsingUtils`, the order hash,
  the fillability validation, ...) are parameters.
-/

namespace LaunchKit

/-! ## Orders and their wire form -/

/-- In-memory order, `SignedOrder` of `0x.js`. -/
structure SignedOrder where
  senderAddress : String
  makerAddress : String
  takerAddress : String
  makerFee : Nat
  takerFee : Nat
  makerAssetAmount : Nat
  takerAssetAmount : Nat
  makerAssetData : String
  takerAssetData : String
  salt : Nat
  exchangeAddress : String
  feeRecipientAddress : String
  expirationTimeSeconds : Nat
  signature : String
  deriving DecidableEq, Repr

/-- Wire form of an order, `StringifiedSignedOrder` (mesh_adapter.ts, 15-30). -/
structure StringifiedSignedOrder where
  senderAddress : String
  makerAddress : String
  takerAddress : String
  makerFee : String
  takerFee : String
  makerAssetAmount : String
  takerAssetAmount : String
  makerAssetData : String
  takerAssetData : String
  salt : String
  exchangeAddress : String
  feeRecipientAddress : String
  expirationTimeSeconds : String
  signature : String
  deriving DecidableEq, Repr

/-- The two library functions of the wire codec that live outside the repository:
`BigNumber.prototype.toString` and `orderParsingUtils.convertOrderStringFieldsToBigNumber`. -/
structure Codec where
  bigNumberToString : Nat → String
  convertOrderStringFieldsToBigNumber : StringifiedSignedOrder → SignedOrder

/-- Encoder `stringifyOrder` (mesh_adapter.ts, 244-262). -/
def stringifyOrder (codec : Codec) (signedOrder : SignedOrder) : StringifiedSignedOrder :=
  { signature := signedOrder.signature
    senderAddress := signedOrder.senderAddress
    makerAddress := signedOrder.makerAddress
    takerAddress := signedOrder.takerAddress
    makerFee := codec.bigNumberToString signedOrder.makerFee
    takerFee := codec.bigNumberToString signedOrder.takerFee
    makerAssetAmount := codec.bigNumberToString signedOrder.makerAssetAmount
    takerAssetAmount := codec.bigNumberToString signedOrder.takerAssetAmount
    makerAssetData := signedOrder.makerAssetData
    takerAssetData := signedOrder.takerAssetData
    salt := codec.bigNumberToString signedOrder.salt
    exchangeAddress := signedOrder.exchangeAddress
    feeRecipientAddress := signedOrder.feeRecipientAddress
    expirationTimeSeconds := codec.bigNumberToString signedOrder.expirationTimeSeconds }

/-! ## Shared adapter types (`../types`) -/

/-- Kind of a lifecycle batch, `OrderWatcherLifeCycleEvents`. -/
inductive OrderWatcherLifeCycleEvents where
  | Add
  | Remove
  deriving DecidableEq, Repr

/-- One entry of an adapter's answer, `AdaptedOrderAndValidationResult`;
`message := none` is the source's `message: undefined`. -/
structure AdaptedOrderAndValidationResult where
  order : SignedOrder
  message : Option String
  deriving DecidableEq, Repr

/-- Answer of `addOrdersAsync`, `AdaptedValidationResults`. -/
structure AdaptedValidationResults where
  accepted : List AdaptedOrderAndValidationResult
  rejected : List AdaptedOrderAndValidationResult
  deriving DecidableEq, Repr

/-- The owner callback `OrderWatcherLifeCycleCallback`; it may throw. -/
abbrev OrderWatcherLifeCycleCallback :=
  OrderWatcherLifeCycleEvents → List SignedOrder → Except String Unit

/-- One invocation of the owner callback, as recorded in an adapter's log. -/
abbrev CallbackCall := OrderWatcherLifeCycleEvents × List SignedOrder

/-! ## Remote adapter: protocol types (mesh_adapter.ts, 32-106) -/

namespace OrderEventKind

def Invalid : String := "INVALID"
def Added : String := "ADDED"
def Filled : String := "FILLED"
def FullyFilled : String := "FULLY_FILLED"
def Cancelled : String := "CANCELLED"
def Expired : String := "EXPIRED"
def Unfunded : String := "UNFUNDED"
def FillabilityIncreased : String := "FILLABILITY_INCREASED"

end OrderEventKind

/-- One pushed event; `kind` is the string found on the wire, so a kind outside the
enumeration is representable. -/
structure OrderEvent where
  orderHash : String
  signedOrder : StringifiedSignedOrder
  kind : String
  fillableTakerAssetAmount : String
  txHash : String
  deriving DecidableEq, Repr

structure OrderEventPayload where
  subscription : String
  result : List OrderEvent
  deriving DecidableEq, Repr

structure AcceptedOrderInfo where
  orderHash : String
  signedOrder : StringifiedSignedOrder
  fillableTakerAssetAmount : String
  deriving DecidableEq, Repr

structure RejectedStatus where
  code : String
  message : String
  deriving DecidableEq, Repr

structure RejectedOrderInfo where
  orderHash : String
  signedOrder : StringifiedSignedOrder
  kind : String
  status : RejectedStatus
  deriving DecidableEq, Repr

/-- Reply to `mesh_addOrders`; a list that is absent from the reply is `none`
(the source reads it as `accepted || []`). -/
structure ValidationResults where
  accepted : Option (List AcceptedOrderInfo)
  rejected : Option (List RejectedOrderInfo)
  deriving DecidableEq, Repr

/-- One entry of a `mesh_getOrders` page; only `signedOrder` is read by the adapter. -/
structure OrderInfo where
  orderHash : String
  signedOrder : StringifiedSignedOrder
  fillableTakerAssetAmount : String
  deriving DecidableEq, Repr

/-- Reply to `mesh_getOrders`. -/
structure GetOrdersResponse where
  ordersInfos : List OrderInfo
  snapshotID : String
  deriving DecidableEq, Repr

def SLEEP_INTERVAL : Nat := 1000
def HEARTBEAT_INTERVAL : Nat := 6000
def GET_ORDERS_MAX_SIZE : Nat := 1000
def BATCH_SIZE : Nat := 1000

/-- Lodash `_.chunk(array, size)`: nothing for an empty array or a size below one, otherwise
`ceil(length / size)` slices, slice `i` being `array.slice(i * size, (i + 1) * size)`. -/
def chunk {α : Type} (array : List α) (size : Nat) : List (List α) :=
  if array.length = 0 ∨ size < 1 then []
  else (List.range ((array.length + size - 1) / size)).map
    (fun i => (array.drop (i * size)).take size)

/-! ## Remote adapter: state and environment -/

/-- What the rest of the world does while `MeshAdapter` code is suspended.

* `flagAfter k` is the value of `_isConnectedToMesh` found when the adapter resumes from its
  `k`-th suspension (a sleep or a request round trip): the flag is written by the connect
  loop and by the watchdog timer, which run only while the caller is suspended.
* `addOrdersReply k p` is the outcome of the `k`-th `mesh_addOrders` request, sent with
  payload `p`: a reply, or the error with which the request fails.
* `getOrdersReply page perPage snapshotID` is the outcome of a `mesh_getOrders` request. -/
structure MeshEnv where
  flagAfter : Nat → Bool
  addOrdersReply : Nat → List StringifiedSignedOrder → Except String ValidationResults
  getOrdersReply : Nat → Nat → String → Except String GetOrdersResponse

/-- State of a `MeshAdapter` as far as submission, fetch and event handling read or write it,
with the logs of its effects. -/
structure MeshState where
  isConnectedToMesh : Bool
  suspensions : Nat
  addOrdersRequests : List (List StringifiedSignedOrder)
  getOrdersRequests : List (Nat × Nat × String)
  callbacks : List CallbackCall
  deriving DecidableEq, Repr

/-- The adapter is suspended once (`await utils.sleepAsync(..)` or `await this._wsClient.send(..)`)
and resumes with the flag the environment left. -/
def MeshState.suspend (env : MeshEnv) (s : MeshState) : MeshState :=
  { s with isConnectedToMesh := env.flagAfter s.suspensions, suspensions := s.suspensions + 1 }

/-- Method `_waitForMeshAsync` (mesh_adapter.ts, 222-226): poll the flag, sleeping between polls.
The fuel bounds the number of sleeps. -/
def waitForMeshAsync (env : MeshEnv) : Nat → MeshState → Option MeshState
  | 0, s => if s.isConnectedToMesh then some s else none
  | fuel + 1, s =>
    if s.isConnectedToMesh then some s else waitForMeshAsync env fuel (s.suspend env)

/-- Method `_submitOrdersToMeshAsync` (mesh_adapter.ts, 214-221). -/
def submitOrdersToMeshAsync (codec : Codec) (env : MeshEnv) (fuel : Nat) (s : MeshState)
    (signedOrders : List SignedOrder) : Option (Except String ValidationResults × MeshState) :=
  match waitForMeshAsync env fuel s with
  | none => none
  | some s1 =>
    let stringifiedSignedOrders := signedOrders.map (stringifyOrder codec)
    let validationResults := env.addOrdersReply s1.addOrdersRequests.length stringifiedSignedOrders
    some (validationResults,
      { s1 with addOrdersRequests := s1.addOrdersRequests ++ [stringifiedSignedOrders] }.suspend env)

/-- The accepted entries of one reply, adapted (mesh_adapter.ts, 126-129). -/
def adaptAcceptedValidationResults (codec : Codec) (accepted : Option (List AcceptedOrderInfo)) :
    List AdaptedOrderAndValidationResult :=
  (accepted.getD []).map (fun r =>
    { order := codec.convertOrderStringFieldsToBigNumber r.signedOrder, message := none })

/-- The rejected entries of one reply, adapted (mesh_adapter.ts, 130-133). -/
def adaptRejectedValidationResults (codec : Codec) (rejected : Option (List RejectedOrderInfo)) :
    List AdaptedOrderAndValidationResult :=
  (rejected.getD []).map (fun r =>
    { order := codec.convertOrderStringFieldsToBigNumber r.signedOrder
      message := some (r.kind ++ " " ++ r.status.code ++ ": " ++ r.status.message) })

/-- The loop `for (const chunk of orderChunks)` of `addOrdersAsync` (mesh_adapter.ts, 124-136). -/
def addOrdersLoop (codec : Codec) (env : MeshEnv) (fuel : Nat) :
    List (List SignedOrder) → AdaptedValidationResults → MeshState →
      Option (Except String AdaptedValidationResults × MeshState)
  | [], validationResults, s => some (.ok validationResults, s)
  | chunk :: rest, validationResults, s =>
    match submitOrdersToMeshAsync codec env fuel s chunk with
    | none => none
    | some (.error e, s1) => some (.error e, s1)
    | some (.ok reply, s1) =>
      addOrdersLoop codec env fuel rest
        { accepted := validationResults.accepted ++
            adaptAcceptedValidationResults codec reply.accepted
          rejected := validationResults.rejected ++
            adaptRejectedValidationResults codec reply.rejected } s1

/-- Method `MeshAdapter.addOrdersAsync` (mesh_adapter.ts, 117-138). -/
def addOrdersAsync (codec : Codec) (env : MeshEnv) (fuel : Nat) (s : MeshState)
    (orders : List SignedOrder) : Option (Except String AdaptedValidationResults × MeshState) :=
  let validationResults : AdaptedValidationResults := { accepted := [], rejected := [] }
  if orders.length = 0 then some (.ok validationResults, s)
  else
    match waitForMeshAsync env fuel s with
    | none => none
    | some s1 => addOrdersLoop codec env fuel (chunk orders BATCH_SIZE) validationResults s1

/-- The loop over `eventPayload.result` of `_onOrderEventCallbackAsync` (mesh_adapter.ts,
181-205): the `switch` compares `event.kind` with the cases in the order they are written. -/
def classifyEvents (codec : Codec) :
    List OrderEvent → List SignedOrder → List SignedOrder → List SignedOrder × List SignedOrder
  | [], addedOrders, removedOrders => (addedOrders, removedOrders)
  | event :: rest, addedOrders, removedOrders =>
    let signedOrder := codec.convertOrderStringFieldsToBigNumber event.signedOrder
    if event.kind = OrderEventKind.Added then
      classifyEvents codec rest (addedOrders ++ [signedOrder]) removedOrders
    else if event.kind = OrderEventKind.Cancelled ∨ event.kind = OrderEventKind.Expired ∨
        event.kind = OrderEventKind.FullyFilled ∨ event.kind = OrderEventKind.Unfunded then
      classifyEvents codec rest addedOrders (removedOrders ++ [signedOrder])
    else if event.kind = OrderEventKind.Filled then
      classifyEvents codec rest addedOrders removedOrders
    else if event.kind = OrderEventKind.FillabilityIncreased then
      classifyEvents codec rest (addedOrders ++ [signedOrder]) removedOrders
    else
      classifyEvents codec rest addedOrders removedOrders

/-- One invocation of the owner callback by the remote adapter: the call is logged, and its
outcome is returned. -/
def MeshState.invoke (callback : OrderWatcherLifeCycleCallback) (s : MeshState)
    (kind : OrderWatcherLifeCycleEvents) (orders : List SignedOrder) :
    Except String Unit × MeshState :=
  (callback kind orders, { s with callbacks := s.callbacks ++ [(kind, orders)] })

/-- Method `_onOrderEventCallbackAsync` (mesh_adapter.ts, 178-212). -/
def onOrderEventCallbackAsync (codec : Codec) (callback : OrderWatcherLifeCycleCallback)
    (s : MeshState) (eventPayload : OrderEventPayload) : Except String Unit × MeshState :=
  let (addedOrders, removedOrders) := classifyEvents codec eventPayload.result [] []
  let (r1, s1) :=
    if addedOrders.length > 0 then s.invoke callback .Add addedOrders else (.ok (), s)
  match r1 with
  | .error e => (.error e, s1)
  | .ok _ =>
    if removedOrders.length > 0 then s1.invoke callback .Remove removedOrders else (.ok (), s1)

/-- The `do .. while` loop of `_fetchOrdersAsync` (mesh_adapter.ts, 232-240). The body runs
before the test; the fuel bounds the number of iterations. -/
def fetchOrdersLoop (codec : Codec) (env : MeshEnv) (callback : OrderWatcherLifeCycleCallback)
    (snapshotID : String) : Nat → Nat → List OrderInfo → MeshState →
      Option (Except String Unit × MeshState)
  | 0, _, _, _ => none
  | fuel + 1, page, ordersInfos, s =>
    let signedOrders := ordersInfos.map (fun o => codec.convertOrderStringFieldsToBigNumber o.signedOrder)
    match s.invoke callback .Add signedOrders with
    | (.error e, s1) => some (.error e, s1)
    | (.ok _, s1) =>
      let page := page + 1
      let s2 := { s1 with getOrdersRequests :=
        s1.getOrdersRequests ++ [(page, GET_ORDERS_MAX_SIZE, snapshotID)] }.suspend env
      match env.getOrdersReply page GET_ORDERS_MAX_SIZE snapshotID with
      | .error e => some (.error e, s2)
      | .ok reply =>
        if reply.ordersInfos.length > 0 then
          fetchOrdersLoop codec env callback snapshotID fuel page reply.ordersInfos s2
        else some (.ok (), s2)

/-- Method `_fetchOrdersAsync` (mesh_adapter.ts, 227-241). -/
def fetchOrdersAsync (codec : Codec) (env : MeshEnv) (callback : OrderWatcherLifeCycleCallback)
    (fuel : Nat) (s : MeshState) : Option (Except String Unit × MeshState) :=
  match waitForMeshAsync env fuel s with
  | none => none
  | some s1 =>
    let page := 0
    let s2 := { s1 with getOrdersRequests :=
      s1.getOrdersRequests ++ [(page, GET_ORDERS_MAX_SIZE, "")] }.suspend env
    match env.getOrdersReply page GET_ORDERS_MAX_SIZE "" with
    | .error e => some (.error e, s2)
    | .ok reply =>
      fetchOrdersLoop codec env callback reply.snapshotID fuel page reply.ordersInfos s2

/-! ## Local adapter (order_watcher_adapter.js) -/

/-- A JavaScript `Map` with string keys, as the list of its entries in insertion order. -/
abbrev JsMap (β : Type) := List (String × β)

/-- Lookup `Map.prototype.get`. -/
def JsMap.get {β : Type} : JsMap β → String → Option β
  | [], _ => none
  | (k, v) :: rest, key => if k = key then some v else JsMap.get rest key

/-- Test `Map.prototype.has`. -/
def JsMap.has {β : Type} (m : JsMap β) (key : String) : Bool :=
  (m.get key).isSome

/-- Update `Map.prototype.set`: an existing key keeps its place, a new key goes last. -/
def JsMap.set {β : Type} : JsMap β → String → β → JsMap β
  | [], key, value => [(key, value)]
  | (k, v) :: rest, key, value =>
    if k = key then (k, value) :: rest else (k, v) :: JsMap.set rest key value

/-- Removal `Map.prototype.delete`. -/
def JsMap.delete {β : Type} : JsMap β → String → JsMap β
  | [], _ => []
  | (k, v) :: rest, key =>
    if k = key then JsMap.delete rest key else (k, v) :: JsMap.delete rest key

/-- The collaborators and configuration of an `OrderWatcherAdapter`, none of which is part of
the adapter's source: the fillability check of the contract wrappers, `addOrderAsync` of the
local order watcher, `orderHashUtils.getOrderHashHex`, the owner callback, and the constant
`ORDER_SHADOWING_MARGIN_MS` of `../config`. Each of the four calls may throw. -/
structure Collaborators where
  validateOrderFillableOrThrowAsync : SignedOrder → Except String Unit
  addOrderAsync : SignedOrder → Except String Unit
  getOrderHashHex : SignedOrder → Except String String
  lifeCycleEventCallback : OrderWatcherLifeCycleCallback
  ORDER_SHADOWING_MARGIN_MS : Nat

/-- A call into the local order watcher that went through. -/
inductive WatcherCall where
  | addOrder (order : SignedOrder)
  | removeOrder (orderHash : String)
  deriving DecidableEq, Repr

/-- State of an `OrderWatcherAdapter`: its two maps, and the logs of the owner callbacks it
invoked and of the watcher calls it made. -/
structure AdapterState where
  shadowedOrderHashes : JsMap Nat
  orders : JsMap SignedOrder
  callbacks : List CallbackCall
  watcherCalls : List WatcherCall
  deriving DecidableEq, Repr

/-- State built by the constructor (order_watcher_adapter.js, 11-12). -/
def AdapterState.init : AdapterState :=
  { shadowedOrderHashes := [], orders := [], callbacks := [], watcherCalls := [] }

/-- The `orderState` argument of the subscription handler. -/
structure OrderState where
  orderHash : String
  isValid : Bool
  deriving DecidableEq, Repr

/-- The handler given to `this._orderWatcher.subscribe` (order_watcher_adapter.js, 15-26),
run at time `now`. -/
def onOrderState (now : Nat) (err : Option String) (orderState : OrderState)
    (s : AdapterState) : AdapterState :=
  match err with
  | some _ => s
  | none =>
    let state := orderState
    if !state.isValid then
      { s with shadowedOrderHashes := s.shadowedOrderHashes.set state.orderHash now }
    else
      { s with shadowedOrderHashes := s.shadowedOrderHashes.delete state.orderHash }

/-- First loop of the sweep (order_watcher_adapter.js, 29-35): the hashes whose shadow entry is
older than the margin, in map order. The loop is synchronous, so one reading `now` of the clock
serves all its iterations. -/
def permanentlyExpiredOrders (c : Collaborators) (now : Nat) (s : AdapterState) : List String :=
  (s.shadowedOrderHashes.filter
    (fun entry => decide (entry.2 + c.ORDER_SHADOWING_MARGIN_MS < now))).map Prod.fst

/-- Second loop of the sweep (order_watcher_adapter.js, 37-45). A callback that throws ends
the sweep. -/
def evictLoop (c : Collaborators) : List String → AdapterState → Except String Unit × AdapterState
  | [], s => (.ok (), s)
  | orderHash :: rest, s =>
    match s.orders.get orderHash with
    | some order =>
      let s1 := { s with callbacks := s.callbacks ++ [(.Remove, [order])] }
      match c.lifeCycleEventCallback .Remove [order] with
      | .error e => (.error e, s1)
      | .ok _ =>
        evictLoop c rest
          { s1 with
            shadowedOrderHashes := s1.shadowedOrderHashes.delete orderHash
            orders := s1.orders.delete orderHash
            watcherCalls := s1.watcherCalls ++ [.removeOrder orderHash] }
    | none => evictLoop c rest s

/-- The sweep run by `setAsyncExcludingInterval` (order_watcher_adapter.js, 28-47), at time
`now`. -/
def sweep (c : Collaborators) (now : Nat) (s : AdapterState) : Except String Unit × AdapterState :=
  let expired := permanentlyExpiredOrders c now s
  if expired.length ≠ 0 then evictLoop c expired s else (.ok (), s)

namespace OrderWatcherAdapter

/-- The loop of `OrderWatcherAdapter.addOrdersAsync` (order_watcher_adapter.js, 58-71): the
`try` block runs statement by statement, and the first statement that throws hands its error
to the `catch` block. -/
def addOrdersLoop (c : Collaborators) :
    List SignedOrder → AdaptedValidationResults → AdapterState →
      AdaptedValidationResults × AdapterState
  | [], res, s => (res, s)
  | order :: rest, res, s =>
    match c.validateOrderFillableOrThrowAsync order with
    | .error e =>
      addOrdersLoop c rest { res with rejected := res.rejected ++ [⟨order, some e⟩] } s
    | .ok _ =>
      match c.addOrderAsync order with
      | .error e =>
        addOrdersLoop c rest { res with rejected := res.rejected ++ [⟨order, some e⟩] } s
      | .ok _ =>
        let s1 := { s with watcherCalls := s.watcherCalls ++ [.addOrder order] }
        let res1 := { res with accepted := res.accepted ++ [⟨order, none⟩] }
        match c.getOrderHashHex order with
        | .error e =>
          addOrdersLoop c rest { res1 with rejected := res1.rejected ++ [⟨order, some e⟩] } s1
        | .ok orderHash =>
          let s2 := { s1 with
            orders := s1.orders.set orderHash order
            callbacks := s1.callbacks ++ [(.Add, [order])] }
          match c.lifeCycleEventCallback .Add [order] with
          | .error e =>
            addOrdersLoop c rest { res1 with rejected := res1.rejected ++ [⟨order, some e⟩] } s2
          | .ok _ => addOrdersLoop c rest res1 s2

/-- Method `OrderWatcherAdapter.addOrdersAsync` (order_watcher_adapter.js, 55-76). -/
def addOrdersAsync (c : Collaborators) (s : AdapterState) (orders : List SignedOrder) :
    AdaptedValidationResults × AdapterState :=
  addOrdersLoop c orders { accepted := [], rejected := [] } s

/-- Method `OrderWatcherAdapter.removeOrders` (order_watcher_adapter.js, 77-83); a hash that
throws ends the loop. -/
def removeOrders (c : Collaborators) : List SignedOrder → AdapterState →
    Except String Unit × AdapterState
  | [], s => (.ok (), s)
  | order :: rest, s =>
    match c.getOrderHashHex order with
    | .error e => (.error e, s)
    | .ok orderHash =>
      removeOrders c rest
        { s with
          watcherCalls := s.watcherCalls ++ [.removeOrder orderHash]
          orders := s.orders.delete orderHash }

/-- Method `OrderWatcherAdapter.orderFilter` (order_watcher_adapter.js, 84-87). -/
def orderFilter (c : Collaborators) (s : AdapterState) (order : SignedOrder) :
    Except String Bool :=
  match c.getOrderHashHex order with
  | .error e => .error e
  | .ok orderHash => .ok (s.shadowedOrderHashes.has orderHash)

end OrderWatcherAdapter

/-- What can happen to an `OrderWatcherAdapter`: a call of one of its methods, a validity
notification of the local watcher, a run of the sweep. -/
inductive Action where
  | addOrders (orders : List SignedOrder)
  | removeOrders (orders : List SignedOrder)
  | orderState (now : Nat) (err : Option String) (orderState : OrderState)
  | sweep (now : Nat)
  deriving DecidableEq, Repr

/-- State after one action. -/
def step (c : Collaborators) (s : AdapterState) : Action → AdapterState
  | .addOrders orders => (OrderWatcherAdapter.addOrdersAsync c s orders).2
  | .removeOrders orders => (OrderWatcherAdapter.removeOrders c orders s).2
  | .orderState now err orderState => onOrderState now err orderState s
  | .sweep now => (sweep c now s).2

/-- State after a sequence of actions, run from left to right. -/
def run (c : Collaborators) (s : AdapterState) (actions : List Action) : AdapterState :=
  actions.foldl (step c) s

/-- The replies of a service that answers request `k` with payload `p` by `rep k p`, to the
requests that carry the given chunks, the first of them being request number `n0`. -/
def chunkReplies (codec : Codec) (rep : Nat → List StringifiedSignedOrder → ValidationResults)
    (n0 : Nat) (chunks : List (List SignedOrder)) : List ValidationResults :=
  (chunks.enumFrom n0).map (fun ic => rep ic.1 (ic.2.map (stringifyOrder codec)))

/-- Logs of the remote adapter that a wait leaves alone. -/
def MeshState.sameLogs (s s1 : MeshState) : Prop :=
  s1.addOrdersRequests = s.addOrdersRequests ∧ s1.getOrdersRequests = s.getOrdersRequests ∧
    s1.callbacks = s.callbacks

/-- The connection comes up again after every suspension, sooner or later. -/
def MeshEnv.EventuallyConnected (env : MeshEnv) : Prop :=
  ∀ k, ∃ j, env.flagAfter (k + j) = true

/-! ## Concrete data for the examples -/

/-- A codec for the examples: decimal strings, read back as naturals. -/
def codec0 : Codec where
  bigNumberToString := Nat.repr
  convertOrderStringFieldsToBigNumber := fun w =>
    { senderAddress := w.senderAddress
      makerAddress := w.makerAddress
      takerAddress := w.takerAddress
      makerFee := w.makerFee.toNat?.getD 0
      takerFee := w.takerFee.toNat?.getD 0
      makerAssetAmount := w.makerAssetAmount.toNat?.getD 0
      takerAssetAmount := w.takerAssetAmount.toNat?.getD 0
      makerAssetData := w.makerAssetData
      takerAssetData := w.takerAssetData
      salt := w.salt.toNat?.getD 0
      exchangeAddress := w.exchangeAddress
      feeRecipientAddress := w.feeRecipientAddress
      expirationTimeSeconds := w.expirationTimeSeconds.toNat?.getD 0
      signature := w.signature }

/-- An order for the examples, told from the others by its salt. -/
def order0 (salt : Nat) : SignedOrder :=
  { senderAddress := "0x0", makerAddress := "0xa", takerAddress := "0x0", makerFee := 0,
    takerFee := 0, makerAssetAmount := 1, takerAssetAmount := 1, makerAssetData := "0xf47261b0",
    takerAssetData := "0xf47261b0", salt := salt, exchangeAddress := "0xe",
    feeRecipientAddress := "0x0", expirationTimeSeconds := 2000000000, signature := "0x1b" }

/-- A service that is always connected and answers every `mesh_addOrders` request with a
reply that lists no order at all, and every `mesh_getOrders` request with an empty page. -/
def envSilent : MeshEnv where
  flagAfter := fun _ => true
  addOrdersReply := fun _ _ => .ok { accepted := none, rejected := none }
  getOrdersReply := fun _ _ _ => .ok { ordersInfos := [], snapshotID := "snap" }

/-- A connected remote adapter that has done nothing yet. -/
def meshConnected : MeshState :=
  { isConnectedToMesh := true, suspensions := 0, addOrdersRequests := [],
    getOrdersRequests := [], callbacks := [] }

/-- A disconnected remote adapter that has done nothing yet. -/
def meshDisconnected : MeshState :=
  { meshConnected with isConnectedToMesh := false }

/-- The replies of a service that accepts every order it is sent. -/
def repAcceptAll (_ : Nat) (p : List StringifiedSignedOrder) : ValidationResults :=
  { accepted := some (p.map (fun w =>
      { orderHash := "0x", signedOrder := w, fillableTakerAssetAmount := w.takerAssetAmount }))
    rejected := none }

/-- A service that is always connected and accepts every order it is sent. -/
def envAcceptAll : MeshEnv where
  flagAfter := fun _ => true
  addOrdersReply := fun k p => .ok (repAcceptAll k p)
  getOrdersReply := fun _ _ _ => .ok { ordersInfos := [], snapshotID := "snap" }

/-- An owner callback that always returns normally. -/
def callbackOk : OrderWatcherLifeCycleCallback := fun _ _ => .ok ()

/-- An owner callback that always throws. -/
def callbackThrows : OrderWatcherLifeCycleCallback := fun _ _ => .error "owner failed"

/-- An event for the examples, carrying the order with the given salt. -/
def event0 (kind : String) (salt : Nat) : OrderEvent :=
  { orderHash := "0x", signedOrder := stringifyOrder codec0 (order0 salt), kind := kind,
    fillableTakerAssetAmount := "1", txHash := "0x" }

/-- The events the classifier puts in the Add batch. -/
def isAddKind (kind : String) : Bool :=
  decide (kind = OrderEventKind.Added ∨ kind = OrderEventKind.FillabilityIncreased)

/-- The events the classifier puts in the Remove batch. -/
def isRemoveKind (kind : String) : Bool :=
  decide (kind = OrderEventKind.Cancelled ∨ kind = OrderEventKind.Expired ∨
    kind = OrderEventKind.FullyFilled ∨ kind = OrderEventKind.Unfunded)

/-! ## Local adapter: invariant and example data -/

/-- The keys of a map, in insertion order. -/
def JsMap.keys {β : Type} (m : JsMap β) : List String :=
  m.map Prod.fst

/-- What holds of the two maps of an `OrderWatcherAdapter` in every reachable state: no key
occurs twice, and an order is recorded under its own hash. -/
structure AdapterState.Inv (c : Collaborators) (s : AdapterState) : Prop where
  ordersNodup : (JsMap.keys s.orders).Nodup
  shadowNodup : (JsMap.keys s.shadowedOrderHashes).Nodup
  ordersHash : ∀ k o, (k, o) ∈ s.orders → c.getOrderHashHex o = .ok k

/-- An invalidity notification for the given hash. -/
def Action.shadows (orderHash : String) : Action → Prop
  | .orderState _ none st => st.orderHash = orderHash ∧ st.isValid = false
  | _ => False

/-- Collaborators for the examples: every check passes, the hash of an order is its salt in
decimal, the owner callback returns normally, the margin is 10 ms. -/
def collabOk : Collaborators where
  validateOrderFillableOrThrowAsync := fun _ => .ok ()
  addOrderAsync := fun _ => .ok ()
  getOrderHashHex := fun o => .ok (Nat.repr o.salt)
  lifeCycleEventCallback := callbackOk
  ORDER_SHADOWING_MARGIN_MS := 10

/-- The same collaborators with an owner callback that throws. -/
def collabCallbackThrows : Collaborators where
  validateOrderFillableOrThrowAsync := fun _ => .ok ()
  addOrderAsync := fun _ => .ok ()
  getOrderHashHex := fun o => .ok (Nat.repr o.salt)
  lifeCycleEventCallback := callbackThrows
  ORDER_SHADOWING_MARGIN_MS := 10

/-! ## Local adapter: observing the sweeps of a run -/

/-- The action happens at a time of the clock between `t0` and `t1`; calls of `addOrders` and
`removeOrders` read no clock. -/
def Action.within (t0 t1 : Nat) : Action → Prop
  | .orderState now _ _ => t0 ≤ now ∧ now ≤ t1
  | .sweep now => t0 ≤ now ∧ now ≤ t1
  | _ => True

/-- The watcher calls made by the sweeps of a run, in order: the evictions. -/
def sweepEvictions (c : Collaborators) : AdapterState → List Action → List WatcherCall
  | _, [] => []
  | s, a :: rest =>
    (match a with
      | .sweep now => (sweep c now s).2.watcherCalls.drop s.watcherCalls.length
      | _ => []) ++ sweepEvictions c (step c s a) rest

/-- An action that keeps the hash `h` from eviction while every shadow timestamp of `h`
satisfies `B`: a sweep comes too early for such a timestamp, and an invalidity notification for
`h` records a timestamp that satisfies `B` again. -/
def Action.allowed (c : Collaborators) (h : String) (B : Nat → Prop) : Action → Prop
  | .sweep now => ∀ t, B t → ¬ (t + c.ORDER_SHADOWING_MARGIN_MS < now)
  | .orderState now none st => st.orderHash = h → st.isValid = false → B now
  | _ => True

/-! ## Remote adapter: the connection manager (mesh_adapter.ts, 145-177)

`_connectToMeshAsync` is an `async` loop; it is embedded as the segments of code that run
between two suspensions, each a transition of the state. The outcome of a subscription is an
argument of the segment that resumes after it. -/

/-- State of a `MeshAdapter` with the fields and effects of the connection manager:
`_lastHeartbeat`, the interval timers that are running (by identifier), the invocations of
`_connectToMeshAsync` and of `_fetchOrdersAsync` started so far, the channels subscribed to, the
sleeps begun, and what was logged. -/
structure ConnectionState extends MeshState where
  lastHeartbeat : Option Nat
  timers : List Nat
  nextTimer : Nat
  connectLoops : Nat
  subscribeRequests : List String
  fetchRuns : Nat
  sleeps : Nat
  log : List String
  deriving DecidableEq, Repr

/-- The fields as the class initialises them (mesh_adapter.ts, 109-111), before the constructor
body runs. -/
def ConnectionState.blank : ConnectionState :=
  { isConnectedToMesh := false, suspensions := 0, addOrdersRequests := [],
    getOrdersRequests := [], callbacks := [], lastHeartbeat := none, timers := [],
    nextTimer := 0, connectLoops := 0, subscribeRequests := [], fetchRuns := 0, sleeps := 0,
    log := [] }

/-- The loop test `while (!this._isConnectedToMesh)` and, when it passes, the code up to the
first suspension (mesh_adapter.ts, 146-152): a client is made and the heartbeat subscription is
requested. When the test fails the loop ends. -/
def connectLoopTest (s : ConnectionState) : ConnectionState :=
  if !s.isConnectedToMesh then
    { s with subscribeRequests := s.subscribeRequests ++ ["heartbeat"] }
  else s

/-- An invocation `void this._connectToMeshAsync()`: the loop is entered. -/
def connectToMeshAsync (s : ConnectionState) : ConnectionState :=
  connectLoopTest { s with connectLoops := s.connectLoops + 1 }

/-- The state the constructor leaves (mesh_adapter.ts, 113-116). -/
def ConnectionState.init : ConnectionState :=
  connectToMeshAsync ConnectionState.blank

/-- The `catch` block (mesh_adapter.ts, 172-175), up to its suspension: the error is logged and
the sleep begins. -/
def connectCatch (err : String) (s : ConnectionState) : ConnectionState :=
  { s with log := s.log ++ [err], sleeps := s.sleeps + 1 }

/-- The loop resumes after the sleep of the `catch` block: the loop test runs again. -/
def afterSleep (s : ConnectionState) : ConnectionState :=
  connectLoopTest s

/-- The loop resumes with the outcome of the heartbeat subscription (mesh_adapter.ts, 152-154):
on success the heartbeat handler is registered and the orders subscription is requested. -/
def afterHeartbeatSubscribe (outcome : Except String String) (s : ConnectionState) :
    ConnectionState :=
  match outcome with
  | .error err => connectCatch err s
  | .ok _ => { s with subscribeRequests := s.subscribeRequests ++ ["orders"] }

/-- The loop resumes with the outcome of the orders subscription (mesh_adapter.ts, 154-171): on
success the flag is set, the watchdog timer is started, a fetch is started, and the loop test
runs again. -/
def afterOrdersSubscribe (outcome : Except String String) (s : ConnectionState) :
    ConnectionState :=
  match outcome with
  | .error err => connectCatch err s
  | .ok _ =>
    connectLoopTest
      { s with
        isConnectedToMesh := true
        log := s.log ++ ["Connected to Mesh"]
        timers := s.timers ++ [s.nextTimer]
        nextTimer := s.nextTimer + 1
        fetchRuns := s.fetchRuns + 1 }

/-- The heartbeat handler (mesh_adapter.ts, 153), run at time `now`. -/
def onHeartbeat (now : Nat) (s : ConnectionState) : ConnectionState :=
  { s with lastHeartbeat := some now }

/-- The watchdog tick (mesh_adapter.ts, 159-170) of the timer `timer`, at time `now`. The
difference `Date.now() - this._lastHeartbeat.valueOf()` is compared with a positive bound, so
the truncated difference of naturals decides the same. -/
def heartbeatCheck (timer now : Nat) (s : ConnectionState) : ConnectionState :=
  let stale :=
    match s.lastHeartbeat with
    | none => true
    | some lastHeartbeat => decide (now - lastHeartbeat > HEARTBEAT_INTERVAL)
  if stale then
    connectToMeshAsync
      { s with
        log := s.log ++ ["Disconnected from Mesh"]
        timers := s.timers.filter (fun t => decide (t ≠ timer))
        isConnectedToMesh := false
        lastHeartbeat := none }
  else s

/-- The start of `_fetchOrdersAsync` (mesh_adapter.ts, 227-231): the wait for the connection and
the first request, with its outcome. -/
def fetchOrdersFirstRequest (env : MeshEnv) (fuel : Nat) (s : MeshState) :
    Option (Except String GetOrdersResponse × MeshState) :=
  match waitForMeshAsync env fuel s with
  | none => none
  | some s1 =>
    let page := 0
    some (env.getOrdersReply page GET_ORDERS_MAX_SIZE "",
      { s1 with getOrdersRequests :=
        s1.getOrdersRequests ++ [(page, GET_ORDERS_MAX_SIZE, "")] }.suspend env)

/-- A connection manager whose first connect attempt succeeded and which received one
heartbeat, at time 1000. -/
def connectedAt1000 : ConnectionState :=
  onHeartbeat 1000
    (afterOrdersSubscribe (.ok "0x2") (afterHeartbeatSubscribe (.ok "0x1") ConnectionState.init))

/-- What can happen to the connection manager once the constructor has run: a subscription
request is answered, the sleep of the `catch` block ends, a heartbeat notification arrives, a
watchdog timer fires. -/
inductive ConnEvent where
  | heartbeatSubscribed (outcome : Except String String)
  | ordersSubscribed (outcome : Except String String)
  | slept
  | heartbeat (now : Nat)
  | tick (timer now : Nat)

/-- The event is a heartbeat notification. -/
def ConnEvent.isHeartbeat : ConnEvent → Bool
  | .heartbeat _ => true
  | _ => false

/-- The event is a watchdog tick. -/
def ConnEvent.isTick : ConnEvent → Bool
  | .tick _ _ => true
  | _ => false

/-- State of the connection manager after one event. -/
def connStep (s : ConnectionState) : ConnEvent → ConnectionState
  | .heartbeatSubscribed outcome => afterHeartbeatSubscribe outcome s
  | .ordersSubscribed outcome => afterOrdersSubscribe outcome s
  | .slept => afterSleep s
  | .heartbeat now => onHeartbeat now s
  | .tick timer now => heartbeatCheck timer now s

/-- State of the connection manager after a sequence of events, run from left to right. -/
def connRun (s : ConnectionState) (events : List ConnEvent) : ConnectionState :=
  events.foldl connStep s

/-- A service that is always connected and whose every `mesh_addOrders` request fails. -/
def envFailing : MeshEnv where
  flagAfter := fun _ => true
  addOrdersReply := fun _ _ => .error "socket closed"
  getOrdersReply := fun _ _ _ => .ok { ordersInfos := [], snapshotID := "snap" }

/-- An owner callback that returns normally on Add calls and throws on Remove calls. -/
def callbackThrowsOnRemove : OrderWatcherLifeCycleCallback
  | .Add, _ => .ok ()
  | .Remove, _ => .error "owner failed"

/-- The collaborators of the examples with an owner callback that throws on Remove calls. -/
def collabRemoveThrows : Collaborators where
  validateOrderFillableOrThrowAsync := fun _ => .ok ()
  addOrderAsync := fun _ => .ok ()
  getOrderHashHex := fun o => .ok (Nat.repr o.salt)
  lifeCycleEventCallback := callbackThrowsOnRemove
  ORDER_SHADOWING_MARGIN_MS := 10

/-! ## Lemmas on `chunk` -/

theorem chunk_length {α : Type} (xs : List α) (h : xs ≠ []) :
    (chunk xs BATCH_SIZE).length = (xs.length + 999) / 1000 := by
  have hl : xs.length ≠ 0 := fun h0 => h (List.length_eq_zero.mp h0)
  simp [chunk, BATCH_SIZE, hl]

theorem chunk_getElem {α : Type} (xs : List α) (i : Nat) (hi : i < (chunk xs BATCH_SIZE).length) :
    (chunk xs BATCH_SIZE)[i] = (xs.drop (i * 1000)).take 1000 := by
  have hne : xs ≠ [] := by
    rintro rfl
    simp [chunk] at hi
  simp [chunk, hne, BATCH_SIZE]

theorem slices_flatten {α : Type} (xs : List α) (size m : Nat) :
    ((List.range m).map (fun i => (xs.drop (i * size)).take size)).flatten
      = xs.take (m * size) := by
  induction m with
  | zero => simp
  | succ m ih =>
    rw [List.range_succ, List.map_append, List.flatten_append, ih, Nat.succ_mul, List.take_add]
    simp

theorem chunk_flatten {α : Type} (xs : List α) : (chunk xs BATCH_SIZE).flatten = xs := by
  unfold chunk
  split
  · rename_i h
    rcases h with h | h
    · rw [List.length_eq_zero.mp h]; rfl
    · simp [BATCH_SIZE] at h
  · rw [slices_flatten]
    apply List.take_of_length_le
    simp only [BATCH_SIZE]
    omega

/-! ## Lemmas on the submission loop of the remote adapter -/

theorem waitForMeshAsync_connected (env : MeshEnv) (fuel : Nat) (s : MeshState)
    (h : s.isConnectedToMesh = true) : waitForMeshAsync env fuel s = some s := by
  cases fuel <;> simp [waitForMeshAsync, h]

theorem waitForMeshAsync_of_flag (env : MeshEnv) :
    ∀ (j : Nat) (s : MeshState), env.flagAfter (s.suspensions + j) = true →
      ∃ s1, (∀ fuel, j + 1 ≤ fuel → waitForMeshAsync env fuel s = some s1) ∧
        s1.isConnectedToMesh = true ∧ s.sameLogs s1 := by
  intro j
  induction j with
  | zero =>
    intro s h
    by_cases hc : s.isConnectedToMesh = true
    · exact ⟨s, fun fuel _ => waitForMeshAsync_connected env fuel s hc, hc, rfl, rfl, rfl⟩
    · refine ⟨s.suspend env, ?_, by simpa [MeshState.suspend] using h, rfl, rfl, rfl⟩
      intro fuel hf
      obtain ⟨f, rfl⟩ : ∃ f, fuel = f + 1 := ⟨fuel - 1, by omega⟩
      simp only [waitForMeshAsync, hc]
      exact waitForMeshAsync_connected env f _ (by simpa [MeshState.suspend] using h)
  | succ j ih =>
    intro s h
    by_cases hc : s.isConnectedToMesh = true
    · exact ⟨s, fun fuel _ => waitForMeshAsync_connected env fuel s hc, hc, rfl, rfl, rfl⟩
    · have h1 : env.flagAfter ((s.suspend env).suspensions + j) = true := by
        have : s.suspensions + 1 + j = s.suspensions + (j + 1) := by omega
        simpa [MeshState.suspend, this] using h
      obtain ⟨s1, hw, hc1, hl⟩ := ih (s.suspend env) h1
      refine ⟨s1, ?_, hc1, hl⟩
      intro fuel hf
      obtain ⟨f, rfl⟩ : ∃ f, fuel = f + 1 := ⟨fuel - 1, by omega⟩
      simp only [waitForMeshAsync, hc]
      exact hw f (by omega)

theorem waitForMeshAsync_total (env : MeshEnv) (hconn : env.EventuallyConnected)
    (s : MeshState) :
    ∃ f0 s1, (∀ fuel, f0 ≤ fuel → waitForMeshAsync env fuel s = some s1) ∧
      s1.isConnectedToMesh = true ∧ s.sameLogs s1 := by
  obtain ⟨j, hj⟩ := hconn s.suspensions
  obtain ⟨s1, h⟩ := waitForMeshAsync_of_flag env j s hj
  exact ⟨j + 1, s1, h⟩

theorem submitOrdersToMeshAsync_total (codec : Codec) (env : MeshEnv)
    (hconn : env.EventuallyConnected) (s : MeshState) (signedOrders : List SignedOrder) :
    ∃ f0 s1, (∀ fuel, f0 ≤ fuel → submitOrdersToMeshAsync codec env fuel s signedOrders =
        some (env.addOrdersReply s.addOrdersRequests.length
          (signedOrders.map (stringifyOrder codec)), s1)) ∧
      s1.addOrdersRequests = s.addOrdersRequests ++ [signedOrders.map (stringifyOrder codec)] ∧
      s1.getOrdersRequests = s.getOrdersRequests ∧ s1.callbacks = s.callbacks := by
  obtain ⟨f0, s1, hw, _, hreq, hget, hcb⟩ := waitForMeshAsync_total env hconn s
  refine ⟨f0, { s1 with addOrdersRequests :=
    s1.addOrdersRequests ++ [signedOrders.map (stringifyOrder codec)] }.suspend env,
    fun fuel hf => ?_, ?_, ?_, ?_⟩
  · simp only [submitOrdersToMeshAsync, hw fuel hf, hreq]
  · simp [MeshState.suspend, hreq]
  · simp [MeshState.suspend, hget]
  · simp [MeshState.suspend, hcb]

theorem addOrdersLoop_total (codec : Codec) (env : MeshEnv)
    (rep : Nat → List StringifiedSignedOrder → ValidationResults)
    (hconn : env.EventuallyConnected) (hrep : ∀ k p, env.addOrdersReply k p = .ok (rep k p)) :
    ∀ (chunks : List (List SignedOrder)) (acc : AdaptedValidationResults) (s : MeshState),
      ∃ f0 s1, (∀ fuel, f0 ≤ fuel → addOrdersLoop codec env fuel chunks acc s =
        some (.ok
          { accepted := acc.accepted ++
              (chunkReplies codec rep s.addOrdersRequests.length chunks).flatMap
                (fun v => adaptAcceptedValidationResults codec v.accepted)
            rejected := acc.rejected ++
              (chunkReplies codec rep s.addOrdersRequests.length chunks).flatMap
                (fun v => adaptRejectedValidationResults codec v.rejected) }, s1)) ∧
      s1.addOrdersRequests = s.addOrdersRequests ++ chunks.map (List.map (stringifyOrder codec)) ∧
      s1.getOrdersRequests = s.getOrdersRequests ∧ s1.callbacks = s.callbacks := by
  intro chunks
  induction chunks with
  | nil =>
    intro acc s
    exact ⟨0, s, fun fuel _ => by simp [addOrdersLoop, chunkReplies], by simp, rfl, rfl⟩
  | cons c rest ih =>
    intro acc s
    obtain ⟨f1, s1, hs, hreq1, hget1, hcb1⟩ := submitOrdersToMeshAsync_total codec env hconn s c
    obtain ⟨f2, s2, hl, hreq2, hget2, hcb2⟩ := ih
      { accepted := acc.accepted ++ adaptAcceptedValidationResults codec
          (rep s.addOrdersRequests.length (c.map (stringifyOrder codec))).accepted
        rejected := acc.rejected ++ adaptRejectedValidationResults codec
          (rep s.addOrdersRequests.length (c.map (stringifyOrder codec))).rejected } s1
    refine ⟨max f1 f2, s2, fun fuel hf => ?_, ?_, ?_, ?_⟩
    · have h1 := hs fuel (le_trans (le_max_left _ _) hf)
      have h2 := hl fuel (le_trans (le_max_right _ _) hf)
      rw [hrep] at h1
      simp only [addOrdersLoop, h1, h2, hreq1, chunkReplies, List.enumFrom, List.map_cons,
        List.flatMap_cons, List.length_append, List.length_singleton, List.append_assoc]
    · simp [hreq2, hreq1]
    · rw [hget2, hget1]
    · rw [hcb2, hcb1]

theorem addOrdersAsync_total (codec : Codec) (env : MeshEnv)
    (rep : Nat → List StringifiedSignedOrder → ValidationResults)
    (hconn : env.EventuallyConnected) (hrep : ∀ k p, env.addOrdersReply k p = .ok (rep k p))
    (s : MeshState) (orders : List SignedOrder) (hne : orders ≠ []) :
    ∃ f0 s1, (∀ fuel, f0 ≤ fuel → addOrdersAsync codec env fuel s orders =
        some (.ok
          { accepted := (chunkReplies codec rep s.addOrdersRequests.length
              (chunk orders BATCH_SIZE)).flatMap
                (fun v => adaptAcceptedValidationResults codec v.accepted)
            rejected := (chunkReplies codec rep s.addOrdersRequests.length
              (chunk orders BATCH_SIZE)).flatMap
                (fun v => adaptRejectedValidationResults codec v.rejected) }, s1)) ∧
      s1.addOrdersRequests = s.addOrdersRequests ++
        (chunk orders BATCH_SIZE).map (List.map (stringifyOrder codec)) ∧
      s1.getOrdersRequests = s.getOrdersRequests ∧ s1.callbacks = s.callbacks := by
  obtain ⟨f1, s1, hw, _, hreq1, hget1, hcb1⟩ := waitForMeshAsync_total env hconn s
  obtain ⟨f2, s2, hl, hreq2, hget2, hcb2⟩ := addOrdersLoop_total codec env rep hconn hrep
    (chunk orders BATCH_SIZE) { accepted := [], rejected := [] } s1
  have hlen : orders.length ≠ 0 := fun h0 => hne (List.length_eq_zero.mp h0)
  refine ⟨max f1 f2, s2, fun fuel hf => ?_, ?_, ?_, ?_⟩
  · have h1 := hw fuel (le_trans (le_max_left _ _) hf)
    have h2 := hl fuel (le_trans (le_max_right _ _) hf)
    simp only [addOrdersAsync, hlen, if_false, h1, h2, hreq1, List.nil_append]
  · rw [hreq2, hreq1]
  · rw [hget2, hget1]
  · rw [hcb2, hcb1]

theorem chunkReplies_counts (codec : Codec)
    (rep : Nat → List StringifiedSignedOrder → ValidationResults)
    (hcount : ∀ k p, ((rep k p).accepted.getD []).length + ((rep k p).rejected.getD []).length
      = p.length) :
    ∀ (chunks : List (List SignedOrder)) (n0 : Nat),
      ((chunkReplies codec rep n0 chunks).flatMap
          (fun v => adaptAcceptedValidationResults codec v.accepted)).length +
        ((chunkReplies codec rep n0 chunks).flatMap
          (fun v => adaptRejectedValidationResults codec v.rejected)).length
        = chunks.flatten.length := by
  intro chunks
  induction chunks with
  | nil => intro n0; simp [chunkReplies]
  | cons c rest ih =>
    intro n0
    have h1 := hcount n0 (c.map (stringifyOrder codec))
    have h2 := ih (n0 + 1)
    simp only [chunkReplies, List.enumFrom, List.map_cons, List.flatMap_cons, List.length_append,
      List.flatten_cons, adaptAcceptedValidationResults, adaptRejectedValidationResults,
      List.length_map] at h1 h2 ⊢
    omega

/-! ## Claims on the submission batcher of the remote adapter -/

/-- C1, as stated, fails: a reply that lists none of the submitted orders is passed on as it
is, so one submitted order may come back as zero accepted and zero rejected. -/
theorem addOrdersAsync_counts_counterexample :
    ¬ (∀ (codec : Codec) (env : MeshEnv) (fuel : Nat) (s : MeshState)
        (orders : List SignedOrder) (r : AdaptedValidationResults) (s1 : MeshState),
        addOrdersAsync codec env fuel s orders = some (.ok r, s1) →
          r.accepted.length + r.rejected.length = orders.length) := by
  intro h
  have h1 := h codec0 envSilent 0 meshConnected [order0 1] { accepted := [], rejected := [] }
    _ rfl
  simp at h1

/-- C1, amended: when the connection always comes back and every request is answered by a
reply that lists as many entries, accepted and rejected together, as the request carried
orders, `addOrdersAsync` returns, and the accepted and rejected lists of its result have
together the length of the submitted list. -/
theorem addOrdersAsync_counts (codec : Codec) (env : MeshEnv)
    (rep : Nat → List StringifiedSignedOrder → ValidationResults)
    (hconn : env.EventuallyConnected) (hrep : ∀ k p, env.addOrdersReply k p = .ok (rep k p))
    (hcount : ∀ k p, ((rep k p).accepted.getD []).length + ((rep k p).rejected.getD []).length
      = p.length)
    (s : MeshState) (orders : List SignedOrder) :
    ∃ f0, ∀ fuel, f0 ≤ fuel → ∃ r s1,
      addOrdersAsync codec env fuel s orders = some (.ok r, s1) ∧
        r.accepted.length + r.rejected.length = orders.length := by
  by_cases hne : orders = []
  · subst hne
    exact ⟨0, fun fuel _ => ⟨_, s, rfl, rfl⟩⟩
  · obtain ⟨f0, s1, hrun, _⟩ := addOrdersAsync_total codec env rep hconn hrep s orders hne
    refine ⟨f0, fun fuel hf => ⟨_, s1, hrun fuel hf, ?_⟩⟩
    have := chunkReplies_counts codec rep hcount (chunk orders BATCH_SIZE)
      s.addOrdersRequests.length
    rw [chunk_flatten] at this
    exact this

/-- C3: whatever the connection state, and with no fuel at all for waiting, `addOrdersAsync`
on the empty list returns empty accepted and rejected lists and leaves the adapter state as it
was: no suspension (no wait for the connection) and no request sent. -/
theorem addOrdersAsync_empty (codec : Codec) (env : MeshEnv) (fuel : Nat) (s : MeshState) :
    addOrdersAsync codec env fuel s [] = some (.ok { accepted := [], rejected := [] }, s) := by
  rfl

theorem chunk_lengths {α : Type} (xs : List α) (hne : xs ≠ []) :
    (chunk xs BATCH_SIZE).map List.length
      = (List.range ((xs.length + 999) / 1000)).map (fun i => min 1000 (xs.length - i * 1000)) := by
  simp [chunk, BATCH_SIZE, hne, Function.comp_def]

theorem chunk_getElem_length {α : Type} (xs : List α) (i : Nat)
    (hi : i < (chunk xs BATCH_SIZE).length) :
    ((chunk xs BATCH_SIZE)[i]).length = min 1000 (xs.length - i * 1000) := by
  rw [chunk_getElem]
  simp

theorem slice_eq {α : Type} (xs : List α) (i : Nat) :
    (xs.take (min (1000 * (i + 1)) xs.length)).drop (1000 * i) = (xs.drop (i * 1000)).take 1000 := by
  rw [List.drop_take, Nat.mul_comm i 1000, List.take_eq_take]
  simp only [List.length_drop]
  omega

/-- A request that fails ends the loop of `addOrdersAsync` with the error of the request. -/
theorem addOrdersLoop_request_fails (codec : Codec) (env : MeshEnv) (e : String)
    (herr : ∀ k p, env.addOrdersReply k p = .error e) (fuel : Nat)
    (c : List SignedOrder) (rest : List (List SignedOrder)) (acc : AdaptedValidationResults)
    (s : MeshState) (hc : s.isConnectedToMesh = true) :
    addOrdersLoop codec env fuel (c :: rest) acc s =
      some (.error e, { s with addOrdersRequests :=
        s.addOrdersRequests ++ [c.map (stringifyOrder codec)] }.suspend env) := by
  simp only [addOrdersLoop, submitOrdersToMeshAsync, waitForMeshAsync_connected env fuel s hc, herr]

/-- C4, as stated, fails: of 1001 orders submitted to a connected adapter whose first request
fails, one request is sent, not two; the error of the request ends the call. -/
theorem addOrdersAsync_requests_counterexample :
    (addOrdersAsync codec0 envFailing 0 meshConnected (List.replicate 1001 (order0 1))).map
        (fun p => (p.1, p.2.addOrdersRequests.length))
      = some (.error "socket closed", 1) ∧
    ((List.replicate 1001 (order0 1)).length + 999) / 1000 = 2 := by
  have hlen : (List.replicate 1001 (order0 1)).length = 1001 := List.length_replicate _ _
  have hne : List.replicate 1001 (order0 1) ≠ [] := by
    intro h
    rw [h] at hlen
    exact absurd hlen (by decide)
  have hch : (chunk (List.replicate 1001 (order0 1)) BATCH_SIZE).length = 2 := by
    rw [chunk_length _ hne, hlen]
  obtain ⟨c, rest, hcr⟩ : ∃ c rest, chunk (List.replicate 1001 (order0 1)) BATCH_SIZE = c :: rest := by
    cases h : chunk (List.replicate 1001 (order0 1)) BATCH_SIZE with
    | nil => rw [h] at hch; exact absurd hch (by decide)
    | cons c rest => exact ⟨c, rest, rfl⟩
  constructor
  · have h0 : ¬ (List.replicate 1001 (order0 1)).length = 0 := by rw [hlen]; decide
    simp only [addOrdersAsync, h0, if_false,
      waitForMeshAsync_connected envFailing 0 meshConnected rfl, hcr]
    rw [addOrdersLoop_request_fails codec0 envFailing "socket closed" (fun _ _ => rfl) 0 c rest _
      meshConnected rfl]
    rfl
  · rw [hlen]

/-- C4, amended: for a non-empty submission of `n` orders, when the connection always comes back and
every request is answered, `addOrdersAsync` returns after sending, one after another,
`ceil(n / 1000)` requests; request `i` carries the wire form of
`orders[1000 * i .. min (1000 * (i + 1)) n)`; every request but the last carries 1000 orders,
the last between 1 and 1000, none is empty, and together they carry the wire form of the
whole input in order. For `n = 2500` the sizes are 1000, 1000, 500. -/
theorem addOrdersAsync_requests (codec : Codec) (env : MeshEnv)
    (rep : Nat → List StringifiedSignedOrder → ValidationResults)
    (hconn : env.EventuallyConnected) (hrep : ∀ k p, env.addOrdersReply k p = .ok (rep k p))
    (s : MeshState) (orders : List SignedOrder) (hne : orders ≠ []) :
    ∃ f0, ∀ fuel, f0 ≤ fuel → ∃ r s1 reqs,
      addOrdersAsync codec env fuel s orders = some (.ok r, s1) ∧
      s1.addOrdersRequests = s.addOrdersRequests ++ reqs ∧
      reqs.length = (orders.length + 999) / 1000 ∧
      (∀ i (hi : i < reqs.length), reqs[i] =
        ((orders.take (min (1000 * (i + 1)) orders.length)).drop (1000 * i)).map
          (stringifyOrder codec)) ∧
      (∀ i (hi : i < reqs.length), i + 1 < reqs.length → (reqs[i]).length = 1000) ∧
      (∀ i (hi : i < reqs.length), i + 1 = reqs.length →
        1 ≤ (reqs[i]).length ∧ (reqs[i]).length ≤ 1000) ∧
      (∀ q ∈ reqs, q ≠ []) ∧
      reqs.flatten = orders.map (stringifyOrder codec) ∧
      (orders.length = 2500 → reqs.map List.length = [1000, 1000, 500]) := by
  obtain ⟨f0, s1, hrun, hreq, _⟩ := addOrdersAsync_total codec env rep hconn hrep s orders hne
  have hlen := chunk_length orders hne
  have hsize : ∀ i (hi : i < ((chunk orders BATCH_SIZE).map (List.map (stringifyOrder codec))).length),
      (((chunk orders BATCH_SIZE).map (List.map (stringifyOrder codec)))[i]).length
        = min 1000 (orders.length - i * 1000) := by
    intro i hi
    rw [List.getElem_map, List.length_map, chunk_getElem_length]
  refine ⟨f0, fun fuel hf => ⟨_, s1, (chunk orders BATCH_SIZE).map (List.map (stringifyOrder codec)),
    hrun fuel hf, hreq, ?_, ?_, ?_, ?_, ?_, ?_, ?_⟩⟩
  · rw [List.length_map, hlen]
  · intro i hi
    rw [List.getElem_map, chunk_getElem, slice_eq]
  · intro i hi hlt
    rw [hsize i hi]
    rw [List.length_map, hlen] at hlt
    omega
  · intro i hi hlast
    rw [hsize i hi]
    rw [List.length_map, hlen] at hlast
    have : 0 < orders.length := List.length_pos.mpr hne
    omega
  · intro q hq
    obtain ⟨i, hi, rfl⟩ := List.getElem_of_mem hq
    have h1 := hsize i hi
    have hi2 := hi
    rw [List.length_map, hlen] at hi2
    intro h0
    rw [h0] at h1
    simp only [List.length_nil] at h1
    omega
  · rw [← List.map_flatten, chunk_flatten]
  · intro h2500
    rw [List.map_map]
    have : (List.length ∘ List.map (stringifyOrder codec)) = (List.length : List SignedOrder → Nat) := by
      funext l; simp
    rw [this, chunk_lengths orders hne, h2500]
    decide

/-- C4 amended, at a concrete input: two orders, a service that accepts everything, an adapter that starts
disconnected. -/
theorem addOrdersAsync_requests_witness :
    ∃ f0, ∀ fuel, f0 ≤ fuel → ∃ r s1 reqs,
      addOrdersAsync codec0 envAcceptAll fuel meshDisconnected [order0 1, order0 2]
        = some (.ok r, s1) ∧
      s1.addOrdersRequests = meshDisconnected.addOrdersRequests ++ reqs ∧
      reqs.length = 1 ∧
      reqs.flatten = [order0 1, order0 2].map (stringifyOrder codec0) := by
  obtain ⟨f0, h⟩ := addOrdersAsync_requests codec0 envAcceptAll repAcceptAll
    (fun _ => ⟨0, rfl⟩) (fun _ _ => rfl) meshDisconnected [order0 1, order0 2] (by simp)
  refine ⟨f0, fun fuel hf => ?_⟩
  obtain ⟨r, s1, reqs, h1, h2, h3, _, _, _, _, h4, _⟩ := h fuel hf
  exact ⟨r, s1, reqs, h1, h2, h3, h4⟩

/-- C1 amended, at a concrete input: two orders, a service that accepts everything. -/
theorem addOrdersAsync_counts_witness :
    ∃ f0, ∀ fuel, f0 ≤ fuel → ∃ r s1,
      addOrdersAsync codec0 envAcceptAll fuel meshDisconnected [order0 1, order0 2]
        = some (.ok r, s1) ∧
      r.accepted.length + r.rejected.length = [order0 1, order0 2].length :=
  addOrdersAsync_counts codec0 envAcceptAll repAcceptAll (fun _ => ⟨0, rfl⟩) (fun _ _ => rfl)
    (by intro k p; simp [repAcceptAll]) meshDisconnected [order0 1, order0 2]

/-- C5: for a non-empty submission, when the connection always comes back and every request is
answered, the accepted list of the result is the accepted entries of the replies, taken in
chunk order (a missing list counting as empty), each turned into its decoded order with no
message; the rejected list is the rejected entries of the replies, in chunk order, each turned
into its decoded order with the message `kind ++ " " ++ code ++ ": " ++ message` of that
entry. -/
theorem addOrdersAsync_results (codec : Codec) (env : MeshEnv)
    (rep : Nat → List StringifiedSignedOrder → ValidationResults)
    (hconn : env.EventuallyConnected) (hrep : ∀ k p, env.addOrdersReply k p = .ok (rep k p))
    (s : MeshState) (orders : List SignedOrder) (hne : orders ≠ []) :
    ∃ f0, ∀ fuel, f0 ≤ fuel → ∃ r s1,
      addOrdersAsync codec env fuel s orders = some (.ok r, s1) ∧
      r.accepted =
        ((chunkReplies codec rep s.addOrdersRequests.length (chunk orders BATCH_SIZE)).flatMap
          (fun v => v.accepted.getD [])).map
          (fun a => { order := codec.convertOrderStringFieldsToBigNumber a.signedOrder,
                      message := none }) ∧
      r.rejected =
        ((chunkReplies codec rep s.addOrdersRequests.length (chunk orders BATCH_SIZE)).flatMap
          (fun v => v.rejected.getD [])).map
          (fun x => { order := codec.convertOrderStringFieldsToBigNumber x.signedOrder,
                      message := some (x.kind ++ " " ++ x.status.code ++ ": " ++
                        x.status.message) }) := by
  obtain ⟨f0, s1, hrun, _⟩ := addOrdersAsync_total codec env rep hconn hrep s orders hne
  refine ⟨f0, fun fuel hf => ⟨_, s1, hrun fuel hf, ?_, ?_⟩⟩
  · rw [List.map_flatMap]; rfl
  · rw [List.map_flatMap]; rfl

/-- C5 at a concrete input: the two orders sent come back accepted, decoded, with no message. -/
theorem addOrdersAsync_results_witness :
    ∃ f0, ∀ fuel, f0 ≤ fuel → ∃ r s1,
      addOrdersAsync codec0 envAcceptAll fuel meshDisconnected [order0 1, order0 2]
        = some (.ok r, s1) ∧
      r.accepted.map (fun a => a.message) = [none, none] ∧ r.rejected = [] := by
  obtain ⟨f0, h⟩ := addOrdersAsync_results codec0 envAcceptAll repAcceptAll
    (fun _ => ⟨0, rfl⟩) (fun _ _ => rfl) meshDisconnected [order0 1, order0 2] (by simp)
  refine ⟨f0, fun fuel hf => ?_⟩
  obtain ⟨r, s1, h1, h2, h3⟩ := h fuel hf
  refine ⟨r, s1, h1, ?_, ?_⟩
  · rw [h2]; simp [chunkReplies, chunk, BATCH_SIZE, repAcceptAll, List.range_succ]
  · rw [h3]; simp [chunkReplies, chunk, BATCH_SIZE, repAcceptAll, List.range_succ]

/-! ## Claims on the event classifier and the snapshot fetcher -/

theorem classifyEvents_acc (codec : Codec) :
    ∀ (events : List OrderEvent) (addedOrders removedOrders : List SignedOrder),
      classifyEvents codec events addedOrders removedOrders =
        (addedOrders ++ (events.filter (fun e => isAddKind e.kind)).map
            (fun e => codec.convertOrderStringFieldsToBigNumber e.signedOrder),
         removedOrders ++ (events.filter (fun e => isRemoveKind e.kind)).map
            (fun e => codec.convertOrderStringFieldsToBigNumber e.signedOrder)) := by
  intro events
  induction events with
  | nil => intro a r; simp [classifyEvents]
  | cons e rest ih =>
    intro a r
    unfold classifyEvents
    simp only [ih]
    by_cases h1 : e.kind = OrderEventKind.Added
    · have hA : isAddKind e.kind = true := by simp [isAddKind, h1]
      have hR : isRemoveKind e.kind = false := by rw [h1]; decide
      rw [if_pos h1]
      simp [List.filter_cons, hA, hR]
    · by_cases h2 : e.kind = OrderEventKind.Cancelled ∨ e.kind = OrderEventKind.Expired ∨
          e.kind = OrderEventKind.FullyFilled ∨ e.kind = OrderEventKind.Unfunded
      · have hA : isAddKind e.kind = false := by
          rcases h2 with h | h | h | h <;> rw [h] <;> decide
        have hR : isRemoveKind e.kind = true := by simp only [isRemoveKind, h2, decide_True]
        rw [if_neg h1, if_pos h2]
        simp [List.filter_cons, hA, hR]
      · have hR : isRemoveKind e.kind = false := by simp only [isRemoveKind, h2, decide_False]
        by_cases h4 : e.kind = OrderEventKind.Filled
        · have hA : isAddKind e.kind = false := by rw [h4]; decide
          rw [if_neg h1, if_neg h2, if_pos h4]
          simp [List.filter_cons, hA, hR]
        · by_cases h3 : e.kind = OrderEventKind.FillabilityIncreased
          · have hA : isAddKind e.kind = true := by simp [isAddKind, h3]
            rw [if_neg h1, if_neg h2, if_neg h4, if_pos h3]
            simp [List.filter_cons, hA, hR]
          · have hA : isAddKind e.kind = false := by simp [isAddKind, h1, h3]
            rw [if_neg h1, if_neg h2, if_neg h4, if_neg h3]
            simp [List.filter_cons, hA, hR]

/-- C6: the Add batch built from a notification is the decoded orders of the events of kind
Added or FillabilityIncreased, in incoming order, and the Remove batch is the decoded orders of
the events of kind Cancelled, Expired, FullyFilled or Unfunded, in incoming order; an event of
kind Filled or Invalid, or of a kind outside these six, is in neither batch: the batches are
those of the notification without it. -/
theorem classifyEvents_batches (codec : Codec) (events : List OrderEvent) :
    classifyEvents codec events [] [] =
      ((events.filter (fun e => decide (e.kind = OrderEventKind.Added ∨
            e.kind = OrderEventKind.FillabilityIncreased))).map
          (fun e => codec.convertOrderStringFieldsToBigNumber e.signedOrder),
       (events.filter (fun e => decide (e.kind = OrderEventKind.Cancelled ∨
            e.kind = OrderEventKind.Expired ∨ e.kind = OrderEventKind.FullyFilled ∨
            e.kind = OrderEventKind.Unfunded))).map
          (fun e => codec.convertOrderStringFieldsToBigNumber e.signedOrder)) ∧
    (∀ (before after : List OrderEvent) (e : OrderEvent),
      (e.kind = OrderEventKind.Filled ∨ e.kind = OrderEventKind.Invalid ∨
        e.kind ∉ [OrderEventKind.Added, OrderEventKind.FillabilityIncreased,
          OrderEventKind.Cancelled, OrderEventKind.Expired, OrderEventKind.FullyFilled,
          OrderEventKind.Unfunded]) →
      classifyEvents codec (before ++ e :: after) [] [] =
        classifyEvents codec (before ++ after) [] []) := by
  constructor
  · rw [classifyEvents_acc]
    simp [isAddKind, isRemoveKind]
  · intro before after e he
    have hno : isAddKind e.kind = false ∧ isRemoveKind e.kind = false := by
      rcases he with h | h | h
      · rw [h]; decide
      · rw [h]; decide
      · simp only [List.mem_cons, List.mem_singleton, List.not_mem_nil, or_false, not_or] at h
        simp [isAddKind, isRemoveKind, h]
    simp [classifyEvents_acc, List.filter_cons, hno.1, hno.2]

/-- C6 at a concrete input: of an Added, a Filled, a Cancelled and an unknown event, the first
goes to the Add batch, the third to the Remove batch, and leaving the Filled one out changes
nothing. -/
theorem classifyEvents_batches_witness :
    classifyEvents codec0 [event0 "ADDED" 1, event0 "FILLED" 2, event0 "CANCELLED" 3,
        event0 "PAUSED" 4] [] [] =
      classifyEvents codec0 [event0 "ADDED" 1, event0 "CANCELLED" 3, event0 "PAUSED" 4] [] [] :=
  (classifyEvents_batches codec0 []).2 [event0 "ADDED" 1]
    [event0 "CANCELLED" 3, event0 "PAUSED" 4] (event0 "FILLED" 2) (Or.inl rfl)

/-- C7, as stated, fails: with an owner callback that throws, a notification made of one Added
and one Cancelled event gives the Add call only; the Remove batch has one order and is not
delivered. -/
theorem onOrderEventCallbackAsync_calls_counterexample :
    (onOrderEventCallbackAsync codec0 callbackThrows meshConnected
        { subscription := "0x1", result := [event0 "ADDED" 1, event0 "CANCELLED" 2] }).2.callbacks.map
        Prod.fst
      = [OrderWatcherLifeCycleEvents.Add] ∧
    (classifyEvents codec0 [event0 "ADDED" 1, event0 "CANCELLED" 2] [] []).2.length = 1 := by
  decide

/-- C7, amended: with an owner callback that returns normally, handling one notification invokes the
callback with the Add batch if that batch is non-empty, then with the Remove batch if that
batch is non-empty, and not otherwise: at most two calls, Add before Remove, none with an
empty list. A notification made of one Added and one Cancelled event, in either order, gives
one Add call and one Remove call, each with a one-element list. -/
theorem onOrderEventCallbackAsync_calls (codec : Codec) (callback : OrderWatcherLifeCycleCallback)
    (hcb : ∀ kind orders, callback kind orders = .ok ()) (s : MeshState)
    (eventPayload : OrderEventPayload) :
    ∃ calls,
      onOrderEventCallbackAsync codec callback s eventPayload =
        (.ok (), { s with callbacks := s.callbacks ++ calls }) ∧
      calls =
        (if (classifyEvents codec eventPayload.result [] []).1 ≠ [] then
          [(OrderWatcherLifeCycleEvents.Add, (classifyEvents codec eventPayload.result [] []).1)]
         else []) ++
        (if (classifyEvents codec eventPayload.result [] []).2 ≠ [] then
          [(OrderWatcherLifeCycleEvents.Remove, (classifyEvents codec eventPayload.result [] []).2)]
         else []) ∧
      calls.length ≤ 2 ∧
      (∀ c ∈ calls, c.2 ≠ []) ∧
      (calls.filter (fun c => decide (c.1 = OrderWatcherLifeCycleEvents.Add))).length ≤ 1 ∧
      (calls.filter (fun c => decide (c.1 = OrderWatcherLifeCycleEvents.Remove))).length ≤ 1 ∧
      (∀ e1 e2 : OrderEvent, e1.kind = OrderEventKind.Added → e2.kind = OrderEventKind.Cancelled →
        (eventPayload.result = [e1, e2] ∨ eventPayload.result = [e2, e1]) →
        calls =
          [(OrderWatcherLifeCycleEvents.Add,
              [codec.convertOrderStringFieldsToBigNumber e1.signedOrder]),
           (OrderWatcherLifeCycleEvents.Remove,
              [codec.convertOrderStringFieldsToBigNumber e2.signedOrder])]) := by
  refine ⟨_, ?_, rfl, ?_, ?_, ?_, ?_, ?_⟩
  · unfold onOrderEventCallbackAsync
    generalize classifyEvents codec eventPayload.result [] [] = batches
    obtain ⟨a, r⟩ := batches
    by_cases ha : a = [] <;> by_cases hr : r = [] <;>
      simp [ha, hr, MeshState.invoke, hcb, List.length_pos]
  · split <;> split <;> simp
  · intro c hc
    split at hc <;> split at hc <;> simp at hc
    · rcases hc with rfl | rfl <;> assumption
    · subst hc; assumption
    · subst hc; assumption
  · split <;> split <;> simp
  · split <;> split <;> simp
  · intro e1 e2 h1 h2 hres
    have hk1 : isAddKind e1.kind = true ∧ isRemoveKind e1.kind = false := by rw [h1]; decide
    have hk2 : isAddKind e2.kind = false ∧ isRemoveKind e2.kind = true := by rw [h2]; decide
    rcases hres with h | h <;>
      simp [h, classifyEvents_acc, List.filter_cons, hk1.1, hk1.2, hk2.1, hk2.2]

/-- C7 amended, at a concrete input: one Added and one Cancelled event. -/
theorem onOrderEventCallbackAsync_calls_witness :
    ∃ calls,
      onOrderEventCallbackAsync codec0 callbackOk meshConnected
          { subscription := "0x1", result := [event0 "ADDED" 1, event0 "CANCELLED" 2] } =
        (.ok (), { meshConnected with callbacks := meshConnected.callbacks ++ calls }) ∧
      calls.length ≤ 2 ∧ (∀ c ∈ calls, c.2 ≠ []) := by
  obtain ⟨calls, h1, _, h2, h3, _⟩ := onOrderEventCallbackAsync_calls codec0 callbackOk
    (fun _ _ => rfl) meshConnected
    { subscription := "0x1", result := [event0 "ADDED" 1, event0 "CANCELLED" 2] }
  exact ⟨calls, h1, h2, h3⟩

/-- C8 fails on the code: when the service has no order, so that page 0 comes back empty (and
page 1 too), the fetch invokes the owner callback once, with kind Add and the empty list, and
then requests page 1. -/
theorem fetchOrdersAsync_empty_first_page :
    fetchOrdersAsync codec0 envSilent callbackOk 1 meshConnected =
      some (.ok (),
        { isConnectedToMesh := true
          suspensions := 2
          addOrdersRequests := []
          getOrdersRequests := [(0, 1000, ""), (1, 1000, "snap")]
          callbacks := [(OrderWatcherLifeCycleEvents.Add, [])] }) := by
  rfl

/-! ## Lemmas on `JsMap` -/

theorem JsMap.delete_eq_filter {β : Type} (m : JsMap β) (key : String) :
    JsMap.delete m key = List.filter (fun e => decide (e.1 ≠ key)) m := by
  induction m with
  | nil => rfl
  | cons e rest ih =>
    obtain ⟨k, v⟩ := e
    by_cases h : k = key
    · simp [JsMap.delete, h, ih]
    · simp [JsMap.delete, h, ih]

theorem JsMap.mem_of_get {β : Type} (m : JsMap β) (key : String) (v : β)
    (h : JsMap.get m key = some v) : (key, v) ∈ m := by
  induction m with
  | nil => simp [JsMap.get] at h
  | cons e rest ih =>
    obtain ⟨k, w⟩ := e
    by_cases hk : k = key
    · simp [JsMap.get, hk] at h
      simp [hk, h]
    · simp [JsMap.get, hk] at h
      exact List.mem_cons_of_mem _ (ih h)

theorem JsMap.get_eq_none {β : Type} (m : JsMap β) (key : String) :
    JsMap.get m key = none ↔ key ∉ JsMap.keys m := by
  induction m with
  | nil => simp [JsMap.get, JsMap.keys]
  | cons e rest ih =>
    obtain ⟨k, w⟩ := e
    by_cases hk : k = key
    · simp [JsMap.get, JsMap.keys, hk]
    · have hk2 : ¬ key = k := fun h => hk h.symm
      simp only [JsMap.keys] at ih
      simp [JsMap.get, JsMap.keys, hk, hk2, ih]

theorem JsMap.get_of_mem {β : Type} (m : JsMap β) (hnd : (JsMap.keys m).Nodup) (key : String)
    (v : β) (h : (key, v) ∈ m) : JsMap.get m key = some v := by
  induction m with
  | nil => simp at h
  | cons e rest ih =>
    obtain ⟨k, w⟩ := e
    simp only [JsMap.keys, List.map_cons, List.nodup_cons] at hnd
    rcases List.mem_cons.mp h with h1 | h1
    · cases h1
      simp [JsMap.get]
    · have hk : ¬ k = key := by
        rintro rfl
        exact hnd.1 (List.mem_map_of_mem Prod.fst h1)
      simp only [JsMap.get, hk, if_false]
      exact ih hnd.2 h1

theorem JsMap.keys_filter_nodup {β : Type} (m : JsMap β) (p : String × β → Bool)
    (hnd : (JsMap.keys m).Nodup) : (JsMap.keys (List.filter p m)).Nodup :=
  List.Nodup.sublist (List.Sublist.map _ (List.filter_sublist m)) hnd

theorem JsMap.mem_set {β : Type} (m : JsMap β) (key : String) (value : β) (k : String) (v : β)
    (h : (k, v) ∈ JsMap.set m key value) : (k, v) ∈ m ∨ (k = key ∧ v = value) := by
  induction m with
  | nil => simp [JsMap.set] at h; exact Or.inr h
  | cons e rest ih =>
    obtain ⟨k1, v1⟩ := e
    by_cases hk : k1 = key
    · simp only [JsMap.set, hk, if_true, List.mem_cons, Prod.mk.injEq] at h
      rcases h with h | h
      · exact Or.inr h
      · exact Or.inl (List.mem_cons_of_mem _ h)
    · simp only [JsMap.set, hk, if_false, List.mem_cons] at h
      rcases h with h | h
      · exact Or.inl (by rw [h]; exact List.mem_cons_self _ _)
      · rcases ih h with h2 | h2
        · exact Or.inl (List.mem_cons_of_mem _ h2)
        · exact Or.inr h2

theorem JsMap.keys_set {β : Type} (m : JsMap β) (key : String) (value : β) (k : String)
    (h : k ∈ JsMap.keys (JsMap.set m key value)) : k ∈ JsMap.keys m ∨ k = key := by
  simp only [JsMap.keys, List.mem_map, Prod.exists, exists_and_right, exists_eq_right] at h ⊢
  obtain ⟨v, hv⟩ := h
  rcases JsMap.mem_set m key value k v hv with h1 | h1
  · exact Or.inl ⟨v, h1⟩
  · exact Or.inr h1.1

theorem JsMap.keys_set_nodup {β : Type} (m : JsMap β) (key : String) (value : β)
    (hnd : (JsMap.keys m).Nodup) : (JsMap.keys (JsMap.set m key value)).Nodup := by
  induction m with
  | nil => simp [JsMap.set, JsMap.keys]
  | cons e rest ih =>
    obtain ⟨k1, v1⟩ := e
    have hnd1 : k1 ∉ JsMap.keys rest ∧ (JsMap.keys rest).Nodup := by
      simpa only [JsMap.keys, List.map_cons, List.nodup_cons] using hnd
    by_cases hk : k1 = key
    · simp only [JsMap.set, hk, if_true]
      subst hk
      simpa only [JsMap.keys, List.map_cons, List.nodup_cons] using hnd1
    · simp only [JsMap.set, hk, if_false]
      have h2 : k1 ∉ JsMap.keys (JsMap.set rest key value) := by
        intro hmem
        rcases JsMap.keys_set rest key value k1 hmem with h3 | h3
        · exact hnd1.1 h3
        · exact hk h3
      have h3 := ih hnd1.2
      simp only [JsMap.keys, List.map_cons, List.nodup_cons] at h2 h3 ⊢
      exact ⟨h2, h3⟩

theorem JsMap.get_set_ne {β : Type} (m : JsMap β) (key : String) (value : β) (k : String)
    (hk : k ≠ key) : JsMap.get (JsMap.set m key value) k = JsMap.get m k := by
  induction m with
  | nil =>
    have : ¬ key = k := fun h => hk h.symm
    simp [JsMap.set, JsMap.get, this]
  | cons e rest ih =>
    obtain ⟨k1, v1⟩ := e
    by_cases h1 : k1 = key
    · have h3 : ¬ k1 = k := by rw [h1]; exact fun h => hk h.symm
      simp only [JsMap.set, h1, if_true, JsMap.get]
      rw [h1] at h3
      simp only [h3, if_false]
    · by_cases h2 : k1 = k
      · subst h2
        simp only [JsMap.set, if_neg h1, JsMap.get, if_true]
      · simp only [JsMap.set, h1, if_false, JsMap.get, h2, ih]

theorem JsMap.get_delete_ne {β : Type} (m : JsMap β) (key k : String) (hk : k ≠ key) :
    JsMap.get (JsMap.delete m key) k = JsMap.get m k := by
  induction m with
  | nil => rfl
  | cons e rest ih =>
    obtain ⟨k1, v1⟩ := e
    by_cases h1 : k1 = key
    · have h3 : ¬ k1 = k := by rw [h1]; exact fun h => hk h.symm
      simp only [JsMap.delete, h1, if_true, JsMap.get]
      rw [h1] at h3
      simp only [h3, if_false, ih]
    · by_cases h2 : k1 = k
      · subst h2
        simp only [JsMap.delete, if_neg h1, JsMap.get, if_true]
      · simp only [JsMap.delete, h1, if_false, JsMap.get, h2, ih]

theorem JsMap.keys_delete_nodup {β : Type} (m : JsMap β) (key : String)
    (hnd : (JsMap.keys m).Nodup) : (JsMap.keys (JsMap.delete m key)).Nodup := by
  rw [JsMap.delete_eq_filter]
  exact JsMap.keys_filter_nodup m _ hnd

theorem JsMap.not_mem_keys_delete {β : Type} (m : JsMap β) (key : String) :
    key ∉ JsMap.keys (JsMap.delete m key) := by
  rw [JsMap.delete_eq_filter]
  simp [JsMap.keys, List.mem_filter]

/-! ## Lemmas on the sweep of the local adapter -/

theorem evictLoop_spec (c : Collaborators)
    (hcb : ∀ orders, c.lifeCycleEventCallback .Remove orders = .ok ()) :
    ∀ (hs : List String) (s : AdapterState), hs.Nodup →
      (evictLoop c hs s).1 = .ok () ∧
      (evictLoop c hs s).2.shadowedOrderHashes = List.filter
        (fun e => !(decide (e.1 ∈ hs) && (JsMap.get s.orders e.1).isSome)) s.shadowedOrderHashes ∧
      (evictLoop c hs s).2.orders = List.filter (fun e => decide (e.1 ∉ hs)) s.orders ∧
      (evictLoop c hs s).2.callbacks = s.callbacks ++ hs.filterMap
        (fun h => (JsMap.get s.orders h).map
          (fun o => (OrderWatcherLifeCycleEvents.Remove, [o]))) ∧
      (evictLoop c hs s).2.watcherCalls = s.watcherCalls ++ hs.filterMap
        (fun h => (JsMap.get s.orders h).map (fun _ => WatcherCall.removeOrder h)) := by
  intro hs
  induction hs with
  | nil => intro s _; simp [evictLoop]
  | cons h rest ih =>
    intro s hnd
    have hnd1 := List.nodup_cons.mp hnd
    cases hget : JsMap.get s.orders h with
    | none =>
      have hstep : evictLoop c (h :: rest) s = evictLoop c rest s := by
        simp only [evictLoop, hget]
      obtain ⟨i1, i2, i3, i4, i5⟩ := ih s hnd1.2
      rw [hstep]
      refine ⟨i1, ?_, ?_, ?_, ?_⟩
      · rw [i2]
        apply List.filter_congr
        intro e _
        by_cases hk : e.1 = h
        · simp [hk, hget]
        · simp [hk]
      · rw [i3]
        apply List.filter_congr
        intro e he
        have hk : e.1 ≠ h := by
          intro hk
          apply (JsMap.get_eq_none s.orders h).mp hget
          rw [← hk]
          exact List.mem_map_of_mem Prod.fst he
        simp [hk]
      · rw [i4]; simp [List.filterMap_cons, hget]
      · rw [i5]; simp [List.filterMap_cons, hget]
    | some o =>
      have hstep : evictLoop c (h :: rest) s = evictLoop c rest
          { shadowedOrderHashes := JsMap.delete s.shadowedOrderHashes h
            orders := JsMap.delete s.orders h
            callbacks := s.callbacks ++ [(OrderWatcherLifeCycleEvents.Remove, [o])]
            watcherCalls := s.watcherCalls ++ [WatcherCall.removeOrder h] } := by
        simp only [evictLoop, hget, hcb]
      obtain ⟨i1, i2, i3, i4, i5⟩ := ih
        { shadowedOrderHashes := JsMap.delete s.shadowedOrderHashes h
          orders := JsMap.delete s.orders h
          callbacks := s.callbacks ++ [(OrderWatcherLifeCycleEvents.Remove, [o])]
          watcherCalls := s.watcherCalls ++ [WatcherCall.removeOrder h] } hnd1.2
      have hrest : ∀ k ∈ rest, JsMap.get (JsMap.delete s.orders h) k = JsMap.get s.orders k := by
        intro k hk
        apply JsMap.get_delete_ne
        rintro rfl
        exact hnd1.1 hk
      rw [hstep]
      refine ⟨i1, ?_, ?_, ?_, ?_⟩
      · rw [i2]
        show List.filter _ (JsMap.delete s.shadowedOrderHashes h) = _
        rw [JsMap.delete_eq_filter, List.filter_filter]
        apply List.filter_congr
        intro e _
        by_cases hk : e.1 = h
        · simp [hk, hget]
        · by_cases hr : e.1 ∈ rest
          · simp [hk, hr, hrest e.1 hr]
          · simp [hk, hr]
      · rw [i3]
        show List.filter _ (JsMap.delete s.orders h) = _
        rw [JsMap.delete_eq_filter, List.filter_filter]
        apply List.filter_congr
        intro e _
        by_cases hk : e.1 = h
        · simp [hk]
        · simp [hk]
      · rw [i4]
        have : rest.filterMap (fun k => (JsMap.get (JsMap.delete s.orders h) k).map
              (fun o => (OrderWatcherLifeCycleEvents.Remove, [o])))
            = rest.filterMap (fun k => (JsMap.get s.orders k).map
              (fun o => (OrderWatcherLifeCycleEvents.Remove, [o]))) :=
          List.filterMap_congr (fun k hk => by rw [hrest k hk])
        simp [List.filterMap_cons, hget, this]
      · rw [i5]
        have : rest.filterMap (fun k => (JsMap.get (JsMap.delete s.orders h) k).map
              (fun _ => WatcherCall.removeOrder k))
            = rest.filterMap (fun k => (JsMap.get s.orders k).map
              (fun _ => WatcherCall.removeOrder k)) :=
          List.filterMap_congr (fun k hk => by rw [hrest k hk])
        simp [List.filterMap_cons, hget, this]

theorem permanentlyExpiredOrders_nodup (c : Collaborators) (now : Nat) (s : AdapterState)
    (hnd : (JsMap.keys s.shadowedOrderHashes).Nodup) :
    (permanentlyExpiredOrders c now s).Nodup :=
  JsMap.keys_filter_nodup s.shadowedOrderHashes _ hnd

theorem mem_permanentlyExpiredOrders (c : Collaborators) (now : Nat) (s : AdapterState)
    (h : String) :
    h ∈ permanentlyExpiredOrders c now s ↔
      ∃ t, (h, t) ∈ s.shadowedOrderHashes ∧ t + c.ORDER_SHADOWING_MARGIN_MS < now := by
  simp [permanentlyExpiredOrders, List.mem_filter]

/-- The sweep, when the owner callback returns normally: what it leaves in the two maps and
what it appends to the two logs. -/
theorem sweep_spec (c : Collaborators)
    (hcb : ∀ orders, c.lifeCycleEventCallback .Remove orders = .ok ())
    (now : Nat) (s : AdapterState) (hnd : (JsMap.keys s.shadowedOrderHashes).Nodup) :
    (sweep c now s).1 = .ok () ∧
    (sweep c now s).2.shadowedOrderHashes = List.filter
      (fun e => !(decide (e.1 ∈ permanentlyExpiredOrders c now s) &&
        (JsMap.get s.orders e.1).isSome)) s.shadowedOrderHashes ∧
    (sweep c now s).2.orders =
      List.filter (fun e => decide (e.1 ∉ permanentlyExpiredOrders c now s)) s.orders ∧
    (sweep c now s).2.callbacks = s.callbacks ++ (permanentlyExpiredOrders c now s).filterMap
      (fun h => (JsMap.get s.orders h).map
        (fun o => (OrderWatcherLifeCycleEvents.Remove, [o]))) ∧
    (sweep c now s).2.watcherCalls = s.watcherCalls ++
      (permanentlyExpiredOrders c now s).filterMap
        (fun h => (JsMap.get s.orders h).map (fun _ => WatcherCall.removeOrder h)) := by
  by_cases hl : (permanentlyExpiredOrders c now s).length ≠ 0
  · have hs : sweep c now s = evictLoop c (permanentlyExpiredOrders c now s) s := by
      unfold sweep
      exact if_pos hl
    rw [hs]
    exact evictLoop_spec c hcb _ s (permanentlyExpiredOrders_nodup c now s hnd)
  · have hs : sweep c now s = (.ok (), s) := by
      unfold sweep
      exact if_neg hl
    have hnil : permanentlyExpiredOrders c now s = [] := by
      apply List.length_eq_zero.mp
      simpa using hl
    rw [hs, hnil]
    simp

/-! ## The invariant of the local adapter -/

theorem AdapterState.inv_init (c : Collaborators) : AdapterState.init.Inv c :=
  ⟨List.nodup_nil, List.nodup_nil, fun _ _ h => by simp [AdapterState.init] at h⟩

theorem JsMap.mem_of_mem_delete {β : Type} (m : JsMap β) (key : String) (e : String × β)
    (h : e ∈ JsMap.delete m key) : e ∈ m := by
  rw [JsMap.delete_eq_filter] at h
  exact (List.mem_filter.mp h).1

theorem OrderWatcherAdapter.addOrdersLoop_inv (c : Collaborators) :
    ∀ (orders : List SignedOrder) (res : AdaptedValidationResults) (s : AdapterState),
      s.Inv c →
        (OrderWatcherAdapter.addOrdersLoop c orders res s).2.Inv c ∧
        (OrderWatcherAdapter.addOrdersLoop c orders res s).2.shadowedOrderHashes
          = s.shadowedOrderHashes ∧
        ∃ extra, (OrderWatcherAdapter.addOrdersLoop c orders res s).2.callbacks
            = s.callbacks ++ extra ∧
          ∀ call ∈ extra, call.1 = OrderWatcherLifeCycleEvents.Add := by
  intro orders
  induction orders with
  | nil => intro res s hinv; exact ⟨hinv, rfl, [], by simp [OrderWatcherAdapter.addOrdersLoop], by simp⟩
  | cons order rest ih =>
    intro res s hinv
    cases hv : c.validateOrderFillableOrThrowAsync order with
    | error e =>
      simp only [OrderWatcherAdapter.addOrdersLoop, hv]
      exact ih _ s hinv
    | ok u =>
      cases ha : c.addOrderAsync order with
      | error e =>
        simp only [OrderWatcherAdapter.addOrdersLoop, hv, ha]
        exact ih _ s hinv
      | ok u1 =>
        have hinv1 : AdapterState.Inv c
            { s with watcherCalls := s.watcherCalls ++ [WatcherCall.addOrder order] } :=
          ⟨hinv.ordersNodup, hinv.shadowNodup, hinv.ordersHash⟩
        cases hh : c.getOrderHashHex order with
        | error e =>
          simp only [OrderWatcherAdapter.addOrdersLoop, hv, ha, hh]
          exact ih _ _ hinv1
        | ok orderHash =>
          have hinv2 : AdapterState.Inv c
              { s with
                watcherCalls := s.watcherCalls ++ [WatcherCall.addOrder order]
                orders := JsMap.set s.orders orderHash order
                callbacks := s.callbacks ++ [(OrderWatcherLifeCycleEvents.Add, [order])] } := by
            refine ⟨JsMap.keys_set_nodup _ _ _ hinv.ordersNodup, hinv.shadowNodup, ?_⟩
            intro k o hmem
            rcases JsMap.mem_set s.orders orderHash order k o hmem with h1 | h1
            · exact hinv.ordersHash k o h1
            · rw [h1.1, h1.2]; exact hh
          obtain ⟨j1, j2, extra, j3, j4⟩ := ih
            { res with accepted := res.accepted ++ [⟨order, none⟩] } _ hinv2
          cases hc : c.lifeCycleEventCallback .Add [order] with
          | error e =>
            obtain ⟨j1, j2, extra, j3, j4⟩ := ih
              { accepted := res.accepted ++ [⟨order, none⟩]
                rejected := res.rejected ++ [⟨order, some e⟩] } _ hinv2
            simp only [OrderWatcherAdapter.addOrdersLoop, hv, ha, hh, hc]
            refine ⟨j1, j2, (OrderWatcherLifeCycleEvents.Add, [order]) :: extra, ?_, ?_⟩
            · rw [j3]; simp
            · intro call hcall
              rcases List.mem_cons.mp hcall with h1 | h1
              · rw [h1]
              · exact j4 call h1
          | ok u2 =>
            simp only [OrderWatcherAdapter.addOrdersLoop, hv, ha, hh, hc]
            refine ⟨j1, j2, (OrderWatcherLifeCycleEvents.Add, [order]) :: extra, ?_, ?_⟩
            · rw [j3]; simp
            · intro call hcall
              rcases List.mem_cons.mp hcall with h1 | h1
              · rw [h1]
              · exact j4 call h1

theorem OrderWatcherAdapter.removeOrders_inv (c : Collaborators) :
    ∀ (orders : List SignedOrder) (s : AdapterState), s.Inv c →
      (OrderWatcherAdapter.removeOrders c orders s).2.Inv c ∧
      (OrderWatcherAdapter.removeOrders c orders s).2.shadowedOrderHashes
        = s.shadowedOrderHashes ∧
      (OrderWatcherAdapter.removeOrders c orders s).2.callbacks = s.callbacks := by
  intro orders
  induction orders with
  | nil => intro s hinv; exact ⟨hinv, rfl, rfl⟩
  | cons order rest ih =>
    intro s hinv
    cases hh : c.getOrderHashHex order with
    | error e =>
      have hstep : OrderWatcherAdapter.removeOrders c (order :: rest) s = (.error e, s) := by
        simp only [OrderWatcherAdapter.removeOrders, hh]
      rw [hstep]
      exact ⟨hinv, rfl, rfl⟩
    | ok orderHash =>
      simp only [OrderWatcherAdapter.removeOrders, hh]
      exact ih _ ⟨JsMap.keys_delete_nodup _ _ hinv.ordersNodup, hinv.shadowNodup,
        fun k o hmem => hinv.ordersHash k o (JsMap.mem_of_mem_delete _ _ _ hmem)⟩

theorem onOrderState_inv (c : Collaborators) (now : Nat) (err : Option String)
    (orderState : OrderState) (s : AdapterState) (hinv : s.Inv c) :
    (onOrderState now err orderState s).Inv c ∧
      (onOrderState now err orderState s).callbacks = s.callbacks := by
  cases err with
  | some e => exact ⟨hinv, rfl⟩
  | none =>
    cases hvalid : orderState.isValid with
    | false =>
      simp only [onOrderState, hvalid]
      exact ⟨⟨hinv.ordersNodup, JsMap.keys_set_nodup _ _ _ hinv.shadowNodup, hinv.ordersHash⟩, rfl⟩
    | true =>
      simp only [onOrderState, hvalid]
      exact ⟨⟨hinv.ordersNodup, JsMap.keys_delete_nodup _ _ hinv.shadowNodup, hinv.ordersHash⟩, rfl⟩

theorem evictLoop_inv (c : Collaborators) :
    ∀ (hs : List String) (s : AdapterState), s.Inv c → (evictLoop c hs s).2.Inv c := by
  intro hs
  induction hs with
  | nil => intro s hinv; exact hinv
  | cons h rest ih =>
    intro s hinv
    cases hget : JsMap.get s.orders h with
    | none =>
      simp only [evictLoop, hget]
      exact ih s hinv
    | some o =>
      cases hc : c.lifeCycleEventCallback .Remove [o] with
      | error e =>
        simp only [evictLoop, hget, hc]
        exact ⟨hinv.ordersNodup, hinv.shadowNodup, hinv.ordersHash⟩
      | ok u =>
        simp only [evictLoop, hget, hc]
        exact ih _ ⟨JsMap.keys_delete_nodup _ _ hinv.ordersNodup,
          JsMap.keys_delete_nodup _ _ hinv.shadowNodup,
          fun k o hmem => hinv.ordersHash k o (JsMap.mem_of_mem_delete _ _ _ hmem)⟩

theorem sweep_inv (c : Collaborators) (now : Nat) (s : AdapterState) (hinv : s.Inv c) :
    (sweep c now s).2.Inv c := by
  by_cases hl : (permanentlyExpiredOrders c now s).length ≠ 0
  · have hs : sweep c now s = evictLoop c (permanentlyExpiredOrders c now s) s := by
      unfold sweep
      exact if_pos hl
    rw [hs]
    exact evictLoop_inv c _ s hinv
  · have hs : sweep c now s = (.ok (), s) := by
      unfold sweep
      exact if_neg hl
    rw [hs]
    exact hinv

theorem step_inv (c : Collaborators) (s : AdapterState) (a : Action) (hinv : s.Inv c) :
    (step c s a).Inv c := by
  cases a with
  | addOrders orders => exact (OrderWatcherAdapter.addOrdersLoop_inv c orders _ s hinv).1
  | removeOrders orders => exact (OrderWatcherAdapter.removeOrders_inv c orders s hinv).1
  | orderState now err st => exact (onOrderState_inv c now err st s hinv).1
  | sweep now => exact sweep_inv c now s hinv

theorem run_inv (c : Collaborators) :
    ∀ (actions : List Action) (s : AdapterState), s.Inv c → (run c s actions).Inv c := by
  intro actions
  induction actions with
  | nil => intro s hinv; exact hinv
  | cons a rest ih => intro s hinv; exact ih _ (step_inv c s a hinv)

/-! ## Eviction by the sweep -/

theorem filterMap_filter_unique {α β : Type} (f : α → Option β) (p : β → Bool) (h : α) (v : β) :
    ∀ (l : List α), l.Nodup → h ∈ l → f h = some v → p v = true →
      (∀ k ∈ l, ∀ b, f k = some b → p b = true → k = h) →
      (l.filterMap f).filter p = [v] := by
  intro l
  induction l with
  | nil => intro _ hmem; simp at hmem
  | cons k rest ih =>
    intro hnd hmem hfh hpv huniq
    have hnd1 := List.nodup_cons.mp hnd
    by_cases hk : k = h
    · subst hk
      have hnil : (rest.filterMap f).filter p = [] := by
        rw [List.filter_eq_nil_iff]
        intro b hb hpb
        obtain ⟨k1, hk1, hfk1⟩ := List.mem_filterMap.mp hb
        have := huniq k1 (List.mem_cons_of_mem _ hk1) b hfk1 hpb
        exact hnd1.1 (this ▸ hk1)
      simp [List.filterMap_cons, hfh, List.filter_cons, hpv, hnil]
    · have hmem1 : h ∈ rest := by
        rcases List.mem_cons.mp hmem with h1 | h1
        · exact absurd h1.symm hk
        · exact h1
      have ih1 := ih hnd1.2 hmem1 hfh hpv
        (fun k1 hk1 b hb hpb => huniq k1 (List.mem_cons_of_mem _ hk1) b hb hpb)
      cases hfk : f k with
      | none => simp [List.filterMap_cons, hfk, ih1]
      | some b =>
        have hpb : p b = false := by
          cases hp : p b with
          | false => rfl
          | true => exact absurd (huniq k (List.mem_cons_self _ _) b hfk hp) hk
        simp [List.filterMap_cons, hfk, List.filter_cons, hpb, ih1]

/-- A sweep at `now`, with an owner callback that returns normally, evicts an order that is
recorded under `h` and whose shadow entry is older than the margin. -/
theorem sweep_evicts (c : Collaborators)
    (hcb : ∀ orders, c.lifeCycleEventCallback .Remove orders = .ok ())
    (s : AdapterState) (hinv : s.Inv c) (o : SignedOrder) (h : String) (t now : Nat)
    (htracked : JsMap.get s.orders h = some o)
    (hshadow : JsMap.get s.shadowedOrderHashes h = some t)
    (hexpired : t + c.ORDER_SHADOWING_MARGIN_MS < now) :
    ∃ calls ws,
      (sweep c now s).2.callbacks = s.callbacks ++ calls ∧
      calls.filter (fun call => decide (call.1 = OrderWatcherLifeCycleEvents.Remove ∧ o ∈ call.2))
        = [(OrderWatcherLifeCycleEvents.Remove, [o])] ∧
      (sweep c now s).2.watcherCalls = s.watcherCalls ++ ws ∧
      WatcherCall.removeOrder h ∈ ws ∧
      JsMap.get (sweep c now s).2.shadowedOrderHashes h = none ∧
      JsMap.get (sweep c now s).2.orders h = none := by
  obtain ⟨_, k2, k3, k4, k5⟩ := sweep_spec c hcb now s hinv.shadowNodup
  have hmem : h ∈ permanentlyExpiredOrders c now s :=
    (mem_permanentlyExpiredOrders c now s h).mpr ⟨t, JsMap.mem_of_get _ _ _ hshadow, hexpired⟩
  have hhash : c.getOrderHashHex o = .ok h := hinv.ordersHash h o (JsMap.mem_of_get _ _ _ htracked)
  refine ⟨_, _, k4, ?_, k5, ?_, ?_, ?_⟩
  · apply filterMap_filter_unique _ _ h _ _ (permanentlyExpiredOrders_nodup c now s hinv.shadowNodup)
      hmem
    · simp [htracked]
    · simp
    · intro k _ b hb hpb
      cases hgk : JsMap.get s.orders k with
      | none => simp [hgk] at hb
      | some o1 =>
        simp only [hgk, Option.map_some', Option.some.injEq] at hb
        subst hb
        simp only [List.mem_singleton, true_and, decide_eq_true_eq] at hpb
        subst hpb
        have h1 := hinv.ordersHash k o (JsMap.mem_of_get _ _ _ hgk)
        rw [hhash] at h1
        exact (Except.ok.inj h1).symm
  · exact List.mem_filterMap.mpr ⟨h, hmem, by simp [htracked]⟩
  · rw [k2, JsMap.get_eq_none]
    simp [JsMap.keys, List.mem_filter, hmem, htracked]
  · rw [k3, JsMap.get_eq_none]
    simp [JsMap.keys, List.mem_filter, hmem]

/-- One action that is not an invalidity notification for `h` leaves `h` without shadow entry
and makes no Remove callback for an order whose hash is `h`. -/
theorem step_quiet (c : Collaborators)
    (hcb : ∀ orders, c.lifeCycleEventCallback .Remove orders = .ok ())
    (o : SignedOrder) (h : String) (hhash : c.getOrderHashHex o = .ok h)
    (s : AdapterState) (a : Action) (hinv : s.Inv c)
    (hfree : h ∉ JsMap.keys s.shadowedOrderHashes) (ha : ¬ a.shadows h) :
    h ∉ JsMap.keys (step c s a).shadowedOrderHashes ∧
    ∃ extra, (step c s a).callbacks = s.callbacks ++ extra ∧
      ∀ call ∈ extra, ¬ (call.1 = OrderWatcherLifeCycleEvents.Remove ∧ o ∈ call.2) := by
  cases a with
  | addOrders orders =>
    obtain ⟨_, j2, extra, j3, j4⟩ := OrderWatcherAdapter.addOrdersLoop_inv c orders
      { accepted := [], rejected := [] } s hinv
    refine ⟨?_, extra, j3, ?_⟩
    · show h ∉ JsMap.keys (OrderWatcherAdapter.addOrdersLoop c orders _ s).2.shadowedOrderHashes
      rw [j2]; exact hfree
    · intro call hcall hrem
      have := j4 call hcall
      rw [this] at hrem
      exact absurd hrem.1 (by decide)
  | removeOrders orders =>
    obtain ⟨_, j2, j3⟩ := OrderWatcherAdapter.removeOrders_inv c orders s hinv
    refine ⟨?_, [], ?_, by simp⟩
    · show h ∉ JsMap.keys (OrderWatcherAdapter.removeOrders c orders s).2.shadowedOrderHashes
      rw [j2]; exact hfree
    · show (OrderWatcherAdapter.removeOrders c orders s).2.callbacks = _
      rw [j3]; simp
  | orderState now err st =>
    refine ⟨?_, [], by rw [List.append_nil]; exact (onOrderState_inv c now err st s hinv).2,
      by simp⟩
    show h ∉ JsMap.keys (onOrderState now err st s).shadowedOrderHashes
    cases err with
    | some e => exact hfree
    | none =>
      cases hvalid : st.isValid with
      | false =>
        simp only [onOrderState, hvalid]
        intro hmem
        rcases JsMap.keys_set _ _ _ _ hmem with h1 | h1
        · exact hfree h1
        · exact ha ⟨h1.symm, hvalid⟩
      | true =>
        simp only [onOrderState, hvalid]
        intro hmem
        apply hfree
        simp only [Bool.not_true, Bool.false_eq_true, if_false, JsMap.delete_eq_filter] at hmem
        simp only [JsMap.keys, List.mem_map] at hmem ⊢
        obtain ⟨e, he, hek⟩ := hmem
        exact ⟨e, (List.mem_filter.mp he).1, hek⟩
  | sweep now =>
    obtain ⟨_, k2, _, k4, _⟩ := sweep_spec c hcb now s hinv.shadowNodup
    refine ⟨?_, _, k4, ?_⟩
    · show h ∉ JsMap.keys (sweep c now s).2.shadowedOrderHashes
      rw [k2]
      intro hmem
      apply hfree
      simp only [JsMap.keys, List.mem_map] at hmem ⊢
      obtain ⟨e, he, hek⟩ := hmem
      exact ⟨e, (List.mem_filter.mp he).1, hek⟩
    · intro call hcall hrem
      obtain ⟨k, hk, hfk⟩ := List.mem_filterMap.mp hcall
      cases hgk : JsMap.get s.orders k with
      | none => simp [hgk] at hfk
      | some o1 =>
        simp only [hgk, Option.map_some', Option.some.injEq] at hfk
        subst hfk
        have ho : o = o1 := by simpa using hrem.2
        subst ho
        have h1 := hinv.ordersHash k o (JsMap.mem_of_get _ _ _ hgk)
        rw [hhash] at h1
        have hkh : h = k := Except.ok.inj h1
        subst hkh
        obtain ⟨t, ht, _⟩ := (mem_permanentlyExpiredOrders c now s h).mp hk
        exact hfree (List.mem_map_of_mem Prod.fst ht)

theorem run_quiet (c : Collaborators)
    (hcb : ∀ orders, c.lifeCycleEventCallback .Remove orders = .ok ())
    (o : SignedOrder) (h : String) (hhash : c.getOrderHashHex o = .ok h) :
    ∀ (later : List Action) (s : AdapterState), s.Inv c →
      h ∉ JsMap.keys s.shadowedOrderHashes → (∀ a ∈ later, ¬ a.shadows h) →
      ∃ extra, (run c s later).callbacks = s.callbacks ++ extra ∧
        ∀ call ∈ extra, ¬ (call.1 = OrderWatcherLifeCycleEvents.Remove ∧ o ∈ call.2) := by
  intro later
  induction later with
  | nil => intro s _ _ _; exact ⟨[], by simp [run], by simp⟩
  | cons a rest ih =>
    intro s hinv hfree hno
    obtain ⟨hfree1, extra1, e1, q1⟩ := step_quiet c hcb o h hhash s a hinv hfree
      (hno a (List.mem_cons_self _ _))
    obtain ⟨extra2, e2, q2⟩ := ih (step c s a) (step_inv c s a hinv) hfree1
      (fun b hb => hno b (List.mem_cons_of_mem _ hb))
    refine ⟨extra1 ++ extra2, ?_, ?_⟩
    · show (run c (step c s a) rest).callbacks = _
      rw [e2, e1, List.append_assoc]
    · intro call hcall
      rcases List.mem_append.mp hcall with h1 | h1
      · exact q1 call h1
      · exact q2 call h1

/-! ## Claims on the local adapter -/

/-- C2 fails on the code: one order that passes the fillability check and is added to the
watcher, submitted with an owner callback that throws, comes back both in the accepted list and
in the rejected list, so the two lists have together two entries for one submitted order. -/
theorem addOrdersAsync_callback_throws :
    (OrderWatcherAdapter.addOrdersAsync collabCallbackThrows AdapterState.init [order0 1]).1 =
      { accepted := [{ order := order0 1, message := none }]
        rejected := [{ order := order0 1, message := some "owner failed" }] } := by
  rfl

/-- C9, as stated, fails: with an owner callback that throws on Remove calls, the sweep at
time 100 invokes the callback for the expired order and then keeps its shadow entry and its
order record and makes no watcher call; the sweep at time 200 invokes the callback for the
same order again. -/
theorem sweep_reports_again :
    (run collabRemoveThrows AdapterState.init
        [.addOrders [order0 1], .orderState 0 none { orderHash := "1", isValid := false },
         .sweep 100]).shadowedOrderHashes = [("1", 0)] ∧
    (run collabRemoveThrows AdapterState.init
        [.addOrders [order0 1], .orderState 0 none { orderHash := "1", isValid := false },
         .sweep 100]).orders = [("1", order0 1)] ∧
    (run collabRemoveThrows AdapterState.init
        [.addOrders [order0 1], .orderState 0 none { orderHash := "1", isValid := false },
         .sweep 100]).watcherCalls = [WatcherCall.addOrder (order0 1)] ∧
    (run collabRemoveThrows AdapterState.init
        [.addOrders [order0 1], .orderState 0 none { orderHash := "1", isValid := false },
         .sweep 100, .sweep 200]).callbacks
      = [(OrderWatcherLifeCycleEvents.Add, [order0 1]),
         (OrderWatcherLifeCycleEvents.Remove, [order0 1]),
         (OrderWatcherLifeCycleEvents.Remove, [order0 1])] := by
  decide

/-- C9, amended: in a state reached from the initial one, let an order `o` be recorded under `h` and
have a shadow entry older than the margin at `now`. With an owner callback that returns
normally, a sweep at `now` invokes the callback exactly once with kind Remove and a list that
contains `o`, the list being `[o]`; it calls `removeOrder h` on the watcher and leaves
neither a shadow entry nor an order record for `h`; and whatever happens later, as long as no
invalidity notification for `h` arrives, no Remove callback is made for `o` again. -/
theorem sweep_evicts_once (c : Collaborators)
    (hcb : ∀ orders, c.lifeCycleEventCallback .Remove orders = .ok ())
    (actions : List Action) (o : SignedOrder) (h : String) (t now : Nat)
    (htracked : JsMap.get (run c AdapterState.init actions).orders h = some o)
    (hshadow : JsMap.get (run c AdapterState.init actions).shadowedOrderHashes h = some t)
    (hexpired : t + c.ORDER_SHADOWING_MARGIN_MS < now) :
    ∃ calls ws,
      (sweep c now (run c AdapterState.init actions)).2.callbacks
        = (run c AdapterState.init actions).callbacks ++ calls ∧
      calls.filter (fun call => decide (call.1 = OrderWatcherLifeCycleEvents.Remove ∧ o ∈ call.2))
        = [(OrderWatcherLifeCycleEvents.Remove, [o])] ∧
      (sweep c now (run c AdapterState.init actions)).2.watcherCalls
        = (run c AdapterState.init actions).watcherCalls ++ ws ∧
      WatcherCall.removeOrder h ∈ ws ∧
      JsMap.get (sweep c now (run c AdapterState.init actions)).2.shadowedOrderHashes h = none ∧
      JsMap.get (sweep c now (run c AdapterState.init actions)).2.orders h = none ∧
      ∀ later : List Action, (∀ a ∈ later, ¬ a.shadows h) →
        ∃ extra,
          (run c (sweep c now (run c AdapterState.init actions)).2 later).callbacks
            = (sweep c now (run c AdapterState.init actions)).2.callbacks ++ extra ∧
          ∀ call ∈ extra, ¬ (call.1 = OrderWatcherLifeCycleEvents.Remove ∧ o ∈ call.2) := by
  have hinv := run_inv c actions AdapterState.init (AdapterState.inv_init c)
  obtain ⟨calls, ws, h1, h2, h3, h4, h5, h6⟩ :=
    sweep_evicts c hcb _ hinv o h t now htracked hshadow hexpired
  refine ⟨calls, ws, h1, h2, h3, h4, h5, h6, ?_⟩
  intro later hlater
  exact run_quiet c hcb o h (hinv.ordersHash h o (JsMap.mem_of_get _ _ _ htracked)) later _
    (sweep_inv c now _ hinv) ((JsMap.get_eq_none _ _).mp h5) hlater

/-- C9 amended, at a concrete input: an order is added, notified invalid at time 0, and swept at time
100 with a margin of 10; two more sweeps follow. -/
theorem sweep_evicts_once_witness :
    (sweep collabOk 100 (run collabOk AdapterState.init
        [.addOrders [order0 1], .orderState 0 none { orderHash := "1", isValid := false }])).2.callbacks
      = [(OrderWatcherLifeCycleEvents.Add, [order0 1]),
         (OrderWatcherLifeCycleEvents.Remove, [order0 1])] ∧
    ∃ extra,
      (run collabOk (sweep collabOk 100 (run collabOk AdapterState.init
          [.addOrders [order0 1], .orderState 0 none { orderHash := "1", isValid := false }])).2
          [.sweep 200, .sweep 300]).callbacks
        = (sweep collabOk 100 (run collabOk AdapterState.init
          [.addOrders [order0 1],
           .orderState 0 none { orderHash := "1", isValid := false }])).2.callbacks ++ extra ∧
      ∀ call ∈ extra, ¬ (call.1 = OrderWatcherLifeCycleEvents.Remove ∧ order0 1 ∈ call.2) := by
  obtain ⟨_, _, _, _, _, _, _, _, hlater⟩ := sweep_evicts_once collabOk (fun _ => rfl)
    [.addOrders [order0 1], .orderState 0 none { orderHash := "1", isValid := false }]
    (order0 1) "1" 0 100 (by decide) (by decide) (by decide)
  exact ⟨by decide, hlater [.sweep 200, .sweep 300] (by simp [Action.shadows])⟩

/-- C10, as stated, fails: an order is added, notified invalid at time 0 and then removed with
`removeOrders`; the sweep at time 100, with a margin of 10, finds no order record for the
expired shadow entry, skips it, and the entry is still in the shadow map after the sweep; no
Remove event was emitted. -/
theorem sweep_keeps_orphan_shadow :
    (run collabOk AdapterState.init
        [.addOrders [order0 1], .orderState 0 none { orderHash := "1", isValid := false },
         .removeOrders [order0 1], .sweep 100]).shadowedOrderHashes = [("1", 0)] ∧
    0 + collabOk.ORDER_SHADOWING_MARGIN_MS < 100 ∧
    (run collabOk AdapterState.init
        [.addOrders [order0 1], .orderState 0 none { orderHash := "1", isValid := false },
         .removeOrders [order0 1], .sweep 100]).callbacks
      = [(OrderWatcherLifeCycleEvents.Add, [order0 1])] := by
  decide

/-- C10, amended: in a state reached from the initial one, after a sweep at `now` with an owner
callback that returns normally, a shadow entry older than the margin remains only if the
adapter held no order record under its hash; an expired entry whose order `o` is recorded is
evicted: its shadow entry and its order record are gone, and the sweep invoked the callback
exactly once with kind Remove and a list containing `o`, the list being `[o]`. -/
theorem sweep_clears_recorded (c : Collaborators)
    (hcb : ∀ orders, c.lifeCycleEventCallback .Remove orders = .ok ())
    (actions : List Action) (now : Nat) :
    (∀ h t, (h, t) ∈ (sweep c now (run c AdapterState.init actions)).2.shadowedOrderHashes →
      t + c.ORDER_SHADOWING_MARGIN_MS < now →
        JsMap.get (run c AdapterState.init actions).orders h = none ∧
        (h, t) ∈ (run c AdapterState.init actions).shadowedOrderHashes) ∧
    (∀ h t o, JsMap.get (run c AdapterState.init actions).shadowedOrderHashes h = some t →
      t + c.ORDER_SHADOWING_MARGIN_MS < now →
      JsMap.get (run c AdapterState.init actions).orders h = some o →
        JsMap.get (sweep c now (run c AdapterState.init actions)).2.shadowedOrderHashes h = none ∧
        JsMap.get (sweep c now (run c AdapterState.init actions)).2.orders h = none ∧
        ∃ calls,
          (sweep c now (run c AdapterState.init actions)).2.callbacks
            = (run c AdapterState.init actions).callbacks ++ calls ∧
          calls.filter
              (fun call => decide (call.1 = OrderWatcherLifeCycleEvents.Remove ∧ o ∈ call.2))
            = [(OrderWatcherLifeCycleEvents.Remove, [o])]) := by
  have hinv := run_inv c actions AdapterState.init (AdapterState.inv_init c)
  constructor
  · intro h t hmem hexp
    obtain ⟨_, k2, _⟩ := sweep_spec c hcb now _ hinv.shadowNodup
    rw [k2] at hmem
    obtain ⟨hm, hp⟩ := List.mem_filter.mp hmem
    have hexpired : h ∈ permanentlyExpiredOrders c now (run c AdapterState.init actions) :=
      (mem_permanentlyExpiredOrders c now _ h).mpr ⟨t, hm, hexp⟩
    refine ⟨?_, hm⟩
    cases hg : JsMap.get (run c AdapterState.init actions).orders h with
    | none => rfl
    | some o => simp [hexpired, hg] at hp
  · intro h t o hshadow hexp htracked
    obtain ⟨calls, _, h1, h2, _, _, h5, h6⟩ :=
      sweep_evicts c hcb _ hinv o h t now htracked hshadow hexp
    exact ⟨h5, h6, calls, h1, h2⟩

/-- C10 amended, at a concrete input: of two orders notified invalid at time 0, the first is
removed with `removeOrders` before the sweep at time 100; the second is evicted. -/
theorem sweep_clears_recorded_witness :
    JsMap.get (sweep collabOk 100 (run collabOk AdapterState.init
        [.addOrders [order0 1, order0 2],
         .orderState 0 none { orderHash := "1", isValid := false },
         .orderState 0 none { orderHash := "2", isValid := false },
         .removeOrders [order0 1]])).2.shadowedOrderHashes "2" = none ∧
    JsMap.get (sweep collabOk 100 (run collabOk AdapterState.init
        [.addOrders [order0 1, order0 2],
         .orderState 0 none { orderHash := "1", isValid := false },
         .orderState 0 none { orderHash := "2", isValid := false },
         .removeOrders [order0 1]])).2.orders "2" = none := by
  obtain ⟨h1, h2, _⟩ := (sweep_clears_recorded collabOk (fun _ => rfl)
    [.addOrders [order0 1, order0 2],
     .orderState 0 none { orderHash := "1", isValid := false },
     .orderState 0 none { orderHash := "2", isValid := false },
     .removeOrders [order0 1]] 100).2 "2" 0 (order0 2) (by decide) (by decide) (by decide)
  exact ⟨h1, h2⟩

/-! ## Revalidation before the margin elapses -/

theorem JsMap.get_set_self {β : Type} (m : JsMap β) (key : String) (value : β) :
    JsMap.get (JsMap.set m key value) key = some value := by
  induction m with
  | nil => simp [JsMap.set, JsMap.get]
  | cons e rest ih =>
    obtain ⟨k1, v1⟩ := e
    by_cases h1 : k1 = key
    · simp only [JsMap.set, h1, if_true, JsMap.get]
    · simp only [JsMap.set, if_neg h1, JsMap.get, ih]

theorem run_append (c : Collaborators) (s : AdapterState) (as bs : List Action) :
    run c s (as ++ bs) = run c (run c s as) bs := by
  simp [run, List.foldl_append]

theorem sweepEvictions_append (c : Collaborators) :
    ∀ (as bs : List Action) (s : AdapterState),
      sweepEvictions c s (as ++ bs) = sweepEvictions c s as ++ sweepEvictions c (run c s as) bs := by
  intro as
  induction as with
  | nil => intro bs s; simp [sweepEvictions, run]
  | cons a rest ih =>
    intro bs s
    show sweepEvictions c s (a :: (rest ++ bs)) = _
    simp only [sweepEvictions, ih, List.append_assoc]
    rfl

/-- What a run of the eviction loop may add to the logs and leave in the shadow map, whatever
the owner callback does. -/
theorem evictLoop_effects (c : Collaborators) :
    ∀ (hs : List String) (s : AdapterState),
      ∃ calls ws,
        (evictLoop c hs s).2.callbacks = s.callbacks ++ calls ∧
        (evictLoop c hs s).2.watcherCalls = s.watcherCalls ++ ws ∧
        (∀ call ∈ calls, ∃ k o1, k ∈ hs ∧ (k, o1) ∈ s.orders ∧
          call = (OrderWatcherLifeCycleEvents.Remove, [o1])) ∧
        (∀ w ∈ ws, ∃ k, k ∈ hs ∧ w = WatcherCall.removeOrder k) ∧
        (∀ e ∈ (evictLoop c hs s).2.shadowedOrderHashes, e ∈ s.shadowedOrderHashes) := by
  intro hs
  induction hs with
  | nil => intro s; exact ⟨[], [], by simp [evictLoop], by simp [evictLoop], by simp, by simp,
      fun e he => he⟩
  | cons h rest ih =>
    intro s
    cases hget : JsMap.get s.orders h with
    | none =>
      have hstep : evictLoop c (h :: rest) s = evictLoop c rest s := by
        simp only [evictLoop, hget]
      obtain ⟨calls, ws, i1, i2, i3, i4, i5⟩ := ih s
      rw [hstep]
      refine ⟨calls, ws, i1, i2, ?_, ?_, i5⟩
      · intro call hcall
        obtain ⟨k, o1, hk, hm, he⟩ := i3 call hcall
        exact ⟨k, o1, List.mem_cons_of_mem _ hk, hm, he⟩
      · intro w hw
        obtain ⟨k, hk, he⟩ := i4 w hw
        exact ⟨k, List.mem_cons_of_mem _ hk, he⟩
    | some o =>
      have hmem : (h, o) ∈ s.orders := JsMap.mem_of_get _ _ _ hget
      cases hc : c.lifeCycleEventCallback .Remove [o] with
      | error e =>
        have hstep : evictLoop c (h :: rest) s =
            (.error e, { s with callbacks :=
              s.callbacks ++ [(OrderWatcherLifeCycleEvents.Remove, [o])] }) := by
          simp only [evictLoop, hget, hc]
        rw [hstep]
        refine ⟨[(OrderWatcherLifeCycleEvents.Remove, [o])], [], rfl, by simp, ?_, by simp,
          fun e he => he⟩
        intro call hcall
        rw [List.mem_singleton] at hcall
        exact ⟨h, o, List.mem_cons_self _ _, hmem, hcall⟩
      | ok u =>
        have hstep : evictLoop c (h :: rest) s = evictLoop c rest
            { shadowedOrderHashes := JsMap.delete s.shadowedOrderHashes h
              orders := JsMap.delete s.orders h
              callbacks := s.callbacks ++ [(OrderWatcherLifeCycleEvents.Remove, [o])]
              watcherCalls := s.watcherCalls ++ [WatcherCall.removeOrder h] } := by
          simp only [evictLoop, hget, hc]
        obtain ⟨calls, ws, i1, i2, i3, i4, i5⟩ := ih
          { shadowedOrderHashes := JsMap.delete s.shadowedOrderHashes h
            orders := JsMap.delete s.orders h
            callbacks := s.callbacks ++ [(OrderWatcherLifeCycleEvents.Remove, [o])]
            watcherCalls := s.watcherCalls ++ [WatcherCall.removeOrder h] }
        rw [hstep]
        refine ⟨(OrderWatcherLifeCycleEvents.Remove, [o]) :: calls,
          WatcherCall.removeOrder h :: ws, ?_, ?_, ?_, ?_, ?_⟩
        · rw [i1]; simp
        · rw [i2]; simp
        · intro call hcall
          rcases List.mem_cons.mp hcall with h1 | h1
          · exact ⟨h, o, List.mem_cons_self _ _, hmem, h1⟩
          · obtain ⟨k, o1, hk, hm, he⟩ := i3 call h1
            exact ⟨k, o1, List.mem_cons_of_mem _ hk, JsMap.mem_of_mem_delete _ _ _ hm, he⟩
        · intro w hw
          rcases List.mem_cons.mp hw with h1 | h1
          · exact ⟨h, List.mem_cons_self _ _, h1⟩
          · obtain ⟨k, hk, he⟩ := i4 w h1
            exact ⟨k, List.mem_cons_of_mem _ hk, he⟩
        · intro e he
          exact JsMap.mem_of_mem_delete _ _ _ (i5 e he)

theorem sweep_effects (c : Collaborators) (now : Nat) (s : AdapterState) :
    ∃ calls ws,
      (sweep c now s).2.callbacks = s.callbacks ++ calls ∧
      (sweep c now s).2.watcherCalls = s.watcherCalls ++ ws ∧
      (∀ call ∈ calls, ∃ k o1, k ∈ permanentlyExpiredOrders c now s ∧ (k, o1) ∈ s.orders ∧
        call = (OrderWatcherLifeCycleEvents.Remove, [o1])) ∧
      (∀ w ∈ ws, ∃ k, k ∈ permanentlyExpiredOrders c now s ∧ w = WatcherCall.removeOrder k) ∧
      (∀ e ∈ (sweep c now s).2.shadowedOrderHashes, e ∈ s.shadowedOrderHashes) := by
  by_cases hl : (permanentlyExpiredOrders c now s).length ≠ 0
  · have hs : sweep c now s = evictLoop c (permanentlyExpiredOrders c now s) s := by
      unfold sweep
      exact if_pos hl
    rw [hs]
    exact evictLoop_effects c _ s
  · have hs : sweep c now s = (.ok (), s) := by
      unfold sweep
      exact if_neg hl
    rw [hs]
    exact ⟨[], [], by simp, by simp, by simp, by simp, fun e he => he⟩

/-- One allowed action keeps every shadow timestamp of `h` within `B`, makes no Remove callback
for an order whose hash is `h`, and, when it is a sweep, does not evict `h`. -/
theorem step_guarded (c : Collaborators) (o : SignedOrder) (h : String)
    (hhash : c.getOrderHashHex o = .ok h) (B : Nat → Prop)
    (s : AdapterState) (a : Action) (hinv : s.Inv c)
    (hB : ∀ t, (h, t) ∈ s.shadowedOrderHashes → B t) (ha : a.allowed c h B) :
    (∀ t, (h, t) ∈ (step c s a).shadowedOrderHashes → B t) ∧
    (∃ extra, (step c s a).callbacks = s.callbacks ++ extra ∧
      ∀ call ∈ extra, ¬ (call.1 = OrderWatcherLifeCycleEvents.Remove ∧ o ∈ call.2)) ∧
    WatcherCall.removeOrder h ∉ sweepEvictions c s [a] := by
  cases a with
  | addOrders orders =>
    obtain ⟨_, j2, extra, j3, j4⟩ := OrderWatcherAdapter.addOrdersLoop_inv c orders
      { accepted := [], rejected := [] } s hinv
    refine ⟨?_, ⟨extra, j3, ?_⟩, by simp [sweepEvictions]⟩
    · intro t ht
      have ht1 : (h, t) ∈
          (OrderWatcherAdapter.addOrdersLoop c orders { accepted := [], rejected := [] }
            s).2.shadowedOrderHashes := ht
      rw [j2] at ht1
      exact hB t ht1
    · intro call hcall hrem
      have := j4 call hcall
      rw [this] at hrem
      exact absurd hrem.1 (by decide)
  | removeOrders orders =>
    obtain ⟨_, j2, j3⟩ := OrderWatcherAdapter.removeOrders_inv c orders s hinv
    refine ⟨?_, ⟨[], ?_, by simp⟩, by simp [sweepEvictions]⟩
    · intro t ht
      have ht1 : (h, t) ∈ (OrderWatcherAdapter.removeOrders c orders s).2.shadowedOrderHashes := ht
      rw [j2] at ht1
      exact hB t ht1
    · show (OrderWatcherAdapter.removeOrders c orders s).2.callbacks = _
      rw [j3]; simp
  | orderState now err st =>
    refine ⟨?_, ⟨[], by rw [List.append_nil]; exact (onOrderState_inv c now err st s hinv).2,
      by simp⟩, by simp [sweepEvictions]⟩
    intro t ht
    have ht1 : (h, t) ∈ (onOrderState now err st s).shadowedOrderHashes := ht
    cases err with
    | some e => exact hB t ht1
    | none =>
      cases hvalid : st.isValid with
      | false =>
        simp only [onOrderState, hvalid, Bool.not_false, if_true] at ht1
        rcases JsMap.mem_set _ _ _ _ _ ht1 with h1 | h1
        · exact hB t h1
        · rw [h1.2]
          exact ha h1.1.symm hvalid
      | true =>
        simp only [onOrderState, hvalid, Bool.not_true, Bool.false_eq_true, if_false] at ht1
        exact hB t (JsMap.mem_of_mem_delete _ _ _ ht1)
  | sweep now =>
    obtain ⟨calls, ws, e1, e2, e3, e4, e5⟩ := sweep_effects c now s
    have hnot : h ∉ permanentlyExpiredOrders c now s := by
      intro hmem
      obtain ⟨t, ht, hexp⟩ := (mem_permanentlyExpiredOrders c now s h).mp hmem
      exact ha t (hB t ht) hexp
    refine ⟨fun t ht => hB t (e5 _ ht), ⟨calls, e1, ?_⟩, ?_⟩
    · intro call hcall hrem
      obtain ⟨k, o1, hk, hm, he⟩ := e3 call hcall
      subst he
      have ho : o = o1 := by simpa using hrem.2
      subst ho
      have h1 := hinv.ordersHash k o hm
      rw [hhash] at h1
      have hkh : h = k := Except.ok.inj h1
      subst hkh
      exact hnot hk
    · have hdrop : (sweep c now s).2.watcherCalls.drop s.watcherCalls.length = ws := by
        rw [e2, List.drop_left]
      simp only [sweepEvictions, hdrop, List.append_nil]
      intro hw
      obtain ⟨k, hk, he⟩ := e4 _ hw
      have hkh : h = k := by simpa using he
      subst hkh
      exact hnot hk

theorem run_guarded (c : Collaborators) (o : SignedOrder) (h : String)
    (hhash : c.getOrderHashHex o = .ok h) (B : Nat → Prop) :
    ∀ (actions : List Action) (s : AdapterState), s.Inv c →
      (∀ t, (h, t) ∈ s.shadowedOrderHashes → B t) → (∀ a ∈ actions, a.allowed c h B) →
      (∀ t, (h, t) ∈ (run c s actions).shadowedOrderHashes → B t) ∧
      (∃ extra, (run c s actions).callbacks = s.callbacks ++ extra ∧
        ∀ call ∈ extra, ¬ (call.1 = OrderWatcherLifeCycleEvents.Remove ∧ o ∈ call.2)) ∧
      WatcherCall.removeOrder h ∉ sweepEvictions c s actions := by
  intro actions
  induction actions with
  | nil => intro s _ hB _; exact ⟨hB, ⟨[], by simp [run], by simp⟩, by simp [sweepEvictions]⟩
  | cons a rest ih =>
    intro s hinv hB hall
    obtain ⟨hB1, ⟨extra1, e1, q1⟩, w1⟩ := step_guarded c o h hhash B s a hinv hB
      (hall a (List.mem_cons_self _ _))
    obtain ⟨hB2, ⟨extra2, e2, q2⟩, w2⟩ := ih (step c s a) (step_inv c s a hinv) hB1
      (fun b hb => hall b (List.mem_cons_of_mem _ hb))
    refine ⟨hB2, ⟨extra1 ++ extra2, ?_, ?_⟩, ?_⟩
    · show (run c (step c s a) rest).callbacks = _
      rw [e2, e1, List.append_assoc]
    · intro call hcall
      rcases List.mem_append.mp hcall with h1 | h1
      · exact q1 call h1
      · exact q2 call h1
    · have happ := sweepEvictions_append c [a] rest s
      rw [List.singleton_append] at happ
      rw [happ]
      intro hmem
      rcases List.mem_append.mp hmem with h1 | h1
      · exact w1 h1
      · exact w2 h1

theorem within_allowed (c : Collaborators) (h : String) (t0 t1 : Nat)
    (hmargin : t1 ≤ t0 + c.ORDER_SHADOWING_MARGIN_MS) (a : Action) (ha : a.within t0 t1) :
    a.allowed c h (fun t => t0 ≤ t) := by
  cases a with
  | addOrders orders => exact trivial
  | removeOrders orders => exact trivial
  | orderState now err st =>
    cases err with
    | some e => exact trivial
    | none => exact fun _ _ => ha.1
  | sweep now =>
    intro t ht hexp
    have h2 : now ≤ t1 := ha.2
    omega

theorem not_shadows_allowed (c : Collaborators) (h : String) (a : Action)
    (ha : ¬ a.shadows h) : a.allowed c h (fun _ => False) := by
  cases a with
  | addOrders orders => exact trivial
  | removeOrders orders => exact trivial
  | orderState now err st =>
    cases err with
    | some e => exact trivial
    | none => exact fun h1 h2 => ha ⟨h1, h2⟩
  | sweep now => exact fun t ht => ht.elim

/-- C11: take any reachable state, an order `o` with hash `h`, an invalidity notification for
`h` at time `t0`, then any actions whose clock readings lie between `t0` and `t1`, then a
validity notification for `h` at time `t1 ≤ t0 + margin`, then any actions among which there is
no invalidity notification for `h`. Whatever the owner callback does, over the whole run no
Remove callback is made for `o`, no sweep calls `removeOrder h` on the watcher (no eviction),
and at the end `h` has no shadow entry. -/
theorem revalidated_never_evicted (c : Collaborators) (pre mid post : List Action)
    (o : SignedOrder) (h : String) (t0 t1 : Nat)
    (hhash : c.getOrderHashHex o = .ok h)
    (hmargin : t1 ≤ t0 + c.ORDER_SHADOWING_MARGIN_MS)
    (hmid : ∀ a ∈ mid, a.within t0 t1)
    (hpost : ∀ a ∈ post, ¬ a.shadows h) :
    (∃ extra,
      (run c (run c AdapterState.init pre)
        (.orderState t0 none { orderHash := h, isValid := false } ::
          (mid ++ .orderState t1 none { orderHash := h, isValid := true } :: post))).callbacks
        = (run c AdapterState.init pre).callbacks ++ extra ∧
      ∀ call ∈ extra, ¬ (call.1 = OrderWatcherLifeCycleEvents.Remove ∧ o ∈ call.2)) ∧
    WatcherCall.removeOrder h ∉ sweepEvictions c (run c AdapterState.init pre)
      (.orderState t0 none { orderHash := h, isValid := false } ::
        (mid ++ .orderState t1 none { orderHash := h, isValid := true } :: post)) ∧
    JsMap.get (run c (run c AdapterState.init pre)
      (.orderState t0 none { orderHash := h, isValid := false } ::
        (mid ++ .orderState t1 none { orderHash := h, isValid := true } :: post))).shadowedOrderHashes
      h = none := by
  have hinv0 := run_inv c pre AdapterState.init (AdapterState.inv_init c)
  generalize run c AdapterState.init pre = s0 at hinv0 ⊢
  have hinv1 := step_inv c s0 (.orderState t0 none { orderHash := h, isValid := false }) hinv0
  have hB1 : ∀ t, (h, t) ∈
      (step c s0 (.orderState t0 none { orderHash := h, isValid := false })).shadowedOrderHashes →
      t0 ≤ t := by
    intro t ht
    have hg := JsMap.get_of_mem _ hinv1.shadowNodup h t ht
    have hs : (step c s0 (.orderState t0 none { orderHash := h, isValid := false })).shadowedOrderHashes
        = JsMap.set s0.shadowedOrderHashes h t0 := rfl
    rw [hs, JsMap.get_set_self] at hg
    exact le_of_eq (Option.some.inj hg)
  obtain ⟨_, ⟨extra1, e1, q1⟩, w1⟩ := run_guarded c o h hhash (fun t => t0 ≤ t) mid _ hinv1 hB1
    (fun a ha => within_allowed c h t0 t1 hmargin a (hmid a ha))
  have hinv2 := run_inv c mid _ hinv1
  generalize hs2 : run c (step c s0 (.orderState t0 none { orderHash := h, isValid := false })) mid
    = s2 at e1 hinv2
  have hinv3 := step_inv c s2 (.orderState t1 none { orderHash := h, isValid := true }) hinv2
  have hB3 : ∀ t, (h, t) ∈
      (step c s2 (.orderState t1 none { orderHash := h, isValid := true })).shadowedOrderHashes →
      False := by
    intro t ht
    have hs : (step c s2 (.orderState t1 none { orderHash := h, isValid := true })).shadowedOrderHashes
        = JsMap.delete s2.shadowedOrderHashes h := rfl
    rw [hs] at ht
    exact JsMap.not_mem_keys_delete _ h (List.mem_map_of_mem Prod.fst ht)
  obtain ⟨hB4, ⟨extra2, e2, q2⟩, w2⟩ := run_guarded c o h hhash (fun _ => False) post _ hinv3 hB3
    (fun a ha => not_shadows_allowed c h a (hpost a ha))
  have hrun : run c s0 (.orderState t0 none { orderHash := h, isValid := false } ::
        (mid ++ .orderState t1 none { orderHash := h, isValid := true } :: post))
      = run c (step c s2 (.orderState t1 none { orderHash := h, isValid := true })) post := by
    rw [← hs2]
    simp [run, List.foldl_append]
  have hev : sweepEvictions c s0 (.orderState t0 none { orderHash := h, isValid := false } ::
        (mid ++ .orderState t1 none { orderHash := h, isValid := true } :: post))
      = sweepEvictions c (step c s0 (.orderState t0 none { orderHash := h, isValid := false })) mid
        ++ sweepEvictions c (step c s2 (.orderState t1 none { orderHash := h, isValid := true }))
          post := by
    simp only [sweepEvictions, List.nil_append]
    rw [sweepEvictions_append, hs2]
    simp only [sweepEvictions, List.nil_append]
  refine ⟨⟨extra1 ++ extra2, ?_, ?_⟩, ?_, ?_⟩
  · rw [hrun, e2]
    have hc3 : (step c s2 (.orderState t1 none { orderHash := h, isValid := true })).callbacks
        = s2.callbacks := rfl
    have hc1 : (step c s0 (.orderState t0 none { orderHash := h, isValid := false })).callbacks
        = s0.callbacks := rfl
    rw [hc3, e1, hc1, List.append_assoc]
  · intro call hcall
    rcases List.mem_append.mp hcall with h1 | h1
    · exact q1 call h1
    · exact q2 call h1
  · rw [hev]
    intro hmem
    rcases List.mem_append.mp hmem with h1 | h1
    · exact w1 h1
    · exact w2 h1
  · rw [hrun, JsMap.get_eq_none]
    intro hmem
    obtain ⟨e, he, hek⟩ := List.mem_map.mp hmem
    obtain ⟨k, t⟩ := e
    simp only at hek
    subst hek
    exact hB4 t he

/-- C11 at a concrete input: an order is added, notified invalid at time 0, swept at time 5,
notified valid at time 8 (the margin is 10 ms), and swept again at time 1000. -/
theorem revalidated_never_evicted_witness :
    WatcherCall.removeOrder "1" ∉ sweepEvictions collabOk
      (run collabOk AdapterState.init [.addOrders [order0 1]])
      (.orderState 0 none { orderHash := "1", isValid := false } ::
        ([.sweep 5] ++ .orderState 8 none { orderHash := "1", isValid := true } ::
          [.sweep 1000])) ∧
    JsMap.get (run collabOk (run collabOk AdapterState.init [.addOrders [order0 1]])
      (.orderState 0 none { orderHash := "1", isValid := false } ::
        ([.sweep 5] ++ .orderState 8 none { orderHash := "1", isValid := true } ::
          [.sweep 1000]))).shadowedOrderHashes "1" = none := by
  obtain ⟨_, h2, h3⟩ := revalidated_never_evicted collabOk [.addOrders [order0 1]] [.sweep 5]
    [.sweep 1000] (order0 1) "1" 0 8 rfl (by decide)
    (by intro a ha; rw [List.mem_singleton] at ha; subst ha; exact ⟨by decide, by decide⟩)
    (by intro a ha; rw [List.mem_singleton] at ha; subst ha; exact fun hf => hf)
  exact ⟨h2, h3⟩

/-! ## Claims on the connection manager of the remote adapter -/

/-- The method `_fetchOrdersAsync` is its first request followed by the page loop. -/
theorem fetchOrdersAsync_eq (codec : Codec) (env : MeshEnv)
    (callback : OrderWatcherLifeCycleCallback) (fuel : Nat) (s : MeshState) :
    fetchOrdersAsync codec env callback fuel s =
      match fetchOrdersFirstRequest env fuel s with
      | none => none
      | some (.error e, s2) => some (.error e, s2)
      | some (.ok reply, s2) =>
        fetchOrdersLoop codec env callback reply.snapshotID fuel 0 reply.ordersInfos s2 := by
  unfold fetchOrdersAsync fetchOrdersFirstRequest
  cases waitForMeshAsync env fuel s with
  | none => rfl
  | some s1 =>
    simp only
    cases env.getOrdersReply 0 GET_ORDERS_MAX_SIZE "" with
    | error e => rfl
    | ok reply => rfl

theorem afterOrdersSubscribe_ok (ordersId : String) (s : ConnectionState) :
    afterOrdersSubscribe (.ok ordersId) s =
      { s with
        isConnectedToMesh := true
        log := s.log ++ ["Connected to Mesh"]
        timers := s.timers ++ [s.nextTimer]
        nextTimer := s.nextTimer + 1
        fetchRuns := s.fetchRuns + 1 } := by
  simp [afterOrdersSubscribe, connectLoopTest]

theorem heartbeatCheck_stale (timer now : Nat) (s : ConnectionState)
    (h : s.lastHeartbeat = none ∨ ∃ hb, s.lastHeartbeat = some hb ∧ now - hb > 6000) :
    heartbeatCheck timer now s =
      { s with
        log := s.log ++ ["Disconnected from Mesh"]
        timers := s.timers.filter (fun t => decide (t ≠ timer))
        isConnectedToMesh := false
        lastHeartbeat := none
        connectLoops := s.connectLoops + 1
        subscribeRequests := s.subscribeRequests ++ ["heartbeat"] } := by
  rcases h with h | ⟨hb, h, hgt⟩
  · simp [heartbeatCheck, h, connectToMeshAsync, connectLoopTest]
  · simp [heartbeatCheck, h, HEARTBEAT_INTERVAL, hgt, connectToMeshAsync, connectLoopTest]

/-- C12: a watchdog tick of timer `timer` at time `now`, in any state and so in a Connected one.
If no heartbeat is recorded, or the last one is more than 6000 ms old, the tick stops its timer
and no other, clears the connected flag and the last heartbeat, logs the disconnection and
enters the connect loop, which requests the heartbeat subscription. If the last heartbeat is at
most 6000 ms old the tick changes nothing. And a connect attempt that succeeds, from whatever
state, sets the flag and starts one fetch, whose first request is for page 0, with the maximal
page size and the empty cursor. -/
theorem heartbeatCheck_spec (timer now : Nat) (s : ConnectionState) :
    ((s.lastHeartbeat = none ∨ ∃ hb, s.lastHeartbeat = some hb ∧ now - hb > 6000) →
      timer ∉ (heartbeatCheck timer now s).timers ∧
      (∀ t, t ≠ timer → (t ∈ (heartbeatCheck timer now s).timers ↔ t ∈ s.timers)) ∧
      (heartbeatCheck timer now s).isConnectedToMesh = false ∧
      (heartbeatCheck timer now s).lastHeartbeat = none ∧
      (heartbeatCheck timer now s).connectLoops = s.connectLoops + 1 ∧
      (heartbeatCheck timer now s).subscribeRequests = s.subscribeRequests ++ ["heartbeat"] ∧
      (heartbeatCheck timer now s).log = s.log ++ ["Disconnected from Mesh"]) ∧
    (∀ hb, s.lastHeartbeat = some hb → now - hb ≤ 6000 → heartbeatCheck timer now s = s) ∧
    (∀ (s1 : ConnectionState) (ordersId : String),
      (afterOrdersSubscribe (.ok ordersId) s1).isConnectedToMesh = true ∧
      (afterOrdersSubscribe (.ok ordersId) s1).fetchRuns = s1.fetchRuns + 1 ∧
      ∀ (env : MeshEnv) (fuel : Nat),
        fetchOrdersFirstRequest env fuel (afterOrdersSubscribe (.ok ordersId) s1).toMeshState =
          some (env.getOrdersReply 0 1000 "",
            { (afterOrdersSubscribe (.ok ordersId) s1).toMeshState with
              getOrdersRequests :=
                (afterOrdersSubscribe (.ok ordersId) s1).getOrdersRequests ++
                  [(0, 1000, "")] }.suspend env)) := by
  refine ⟨?_, ?_, ?_⟩
  · intro h
    rw [heartbeatCheck_stale timer now s h]
    refine ⟨?_, ?_, rfl, rfl, rfl, rfl, rfl⟩
    · simp [List.mem_filter]
    · intro t ht
      simp [List.mem_filter, ht]
  · intro hb h hle
    have : ¬ (now - hb > HEARTBEAT_INTERVAL) := by
      simp only [HEARTBEAT_INTERVAL]; omega
    simp [heartbeatCheck, h, this]
  · intro s1 ordersId
    rw [afterOrdersSubscribe_ok]
    refine ⟨rfl, rfl, ?_⟩
    intro env fuel
    simp only [fetchOrdersFirstRequest]
    rw [waitForMeshAsync_connected env fuel _ rfl]
    rfl

/-- C12 at a concrete input: connected with the last heartbeat at time 1000, the tick at time
8000 disconnects and the tick at time 7000 does nothing. -/
theorem heartbeatCheck_spec_witness :
    (heartbeatCheck 0 8000 connectedAt1000).isConnectedToMesh = false ∧
    (heartbeatCheck 0 8000 connectedAt1000).lastHeartbeat = none ∧
    (heartbeatCheck 0 8000 connectedAt1000).timers = [] ∧
    heartbeatCheck 0 7000 connectedAt1000 = connectedAt1000 := by
  obtain ⟨h1, h2, _⟩ := heartbeatCheck_spec 0 8000 connectedAt1000
  obtain ⟨_, _, h3, h4, _⟩ := h1 (Or.inr ⟨1000, rfl, by decide⟩)
  exact ⟨h3, h4, by decide,
    (heartbeatCheck_spec 0 7000 connectedAt1000).2.1 1000 rfl (by decide)⟩

/-- C13, as stated, fails: after the constructor, a connect attempt whose two subscriptions
succeed leaves the adapter Connected with no last heartbeat recorded, whatever the time at which
it completes. -/
theorem connected_without_heartbeat :
    (afterOrdersSubscribe (.ok "0x2")
      (afterHeartbeatSubscribe (.ok "0x1") ConnectionState.init)).isConnectedToMesh = true ∧
    (afterOrdersSubscribe (.ok "0x2")
      (afterHeartbeatSubscribe (.ok "0x1") ConnectionState.init)).lastHeartbeat = none := by
  decide

/-! ### What writes the last heartbeat -/

theorem connectLoopTest_lastHeartbeat (s : ConnectionState) :
    (connectLoopTest s).lastHeartbeat = s.lastHeartbeat := by
  unfold connectLoopTest; split <;> rfl

theorem connectToMeshAsync_lastHeartbeat (s : ConnectionState) :
    (connectToMeshAsync s).lastHeartbeat = s.lastHeartbeat := by
  unfold connectToMeshAsync connectLoopTest; split <;> rfl

theorem afterHeartbeatSubscribe_lastHeartbeat (outcome : Except String String)
    (s : ConnectionState) :
    (afterHeartbeatSubscribe outcome s).lastHeartbeat = s.lastHeartbeat := by
  cases outcome <;> rfl

theorem afterOrdersSubscribe_lastHeartbeat (outcome : Except String String)
    (s : ConnectionState) :
    (afterOrdersSubscribe outcome s).lastHeartbeat = s.lastHeartbeat := by
  cases outcome with
  | error e => rfl
  | ok ordersId => rw [afterOrdersSubscribe_ok]

theorem heartbeatCheck_lastHeartbeat (timer now : Nat) (s : ConnectionState) :
    (heartbeatCheck timer now s).lastHeartbeat = s.lastHeartbeat ∨
      ((heartbeatCheck timer now s).lastHeartbeat = none ∧
        (heartbeatCheck timer now s).isConnectedToMesh = false) := by
  by_cases h : s.lastHeartbeat = none ∨ ∃ hb, s.lastHeartbeat = some hb ∧ now - hb > 6000
  · right
    rw [heartbeatCheck_stale timer now s h]
    exact ⟨rfl, rfl⟩
  · left
    cases hl : s.lastHeartbeat with
    | none => exact absurd (Or.inl hl) h
    | some hb =>
      have hle : ¬ (now - hb > HEARTBEAT_INTERVAL) := by
        intro hgt
        exact h (Or.inr ⟨hb, hl, hgt⟩)
      have hs : heartbeatCheck timer now s = s := by
        simp [heartbeatCheck, hl, hle]
      rw [hs, hl]

/-- An event that is neither a heartbeat nor a watchdog tick leaves the last heartbeat. -/
theorem connStep_lastHeartbeat (s : ConnectionState) (e : ConnEvent)
    (hh : e.isHeartbeat = false) (ht : e.isTick = false) :
    (connStep s e).lastHeartbeat = s.lastHeartbeat := by
  cases e with
  | heartbeatSubscribed outcome => exact afterHeartbeatSubscribe_lastHeartbeat outcome s
  | ordersSubscribed outcome => exact afterOrdersSubscribe_lastHeartbeat outcome s
  | slept => exact connectLoopTest_lastHeartbeat s
  | heartbeat now => simp [ConnEvent.isHeartbeat] at hh
  | tick timer now => simp [ConnEvent.isTick] at ht

/-- A last heartbeat found after an event was there before it or is the time of the event, a
heartbeat. -/
theorem connStep_lastHeartbeat_some (s : ConnectionState) (e : ConnEvent) (t : Nat)
    (h : (connStep s e).lastHeartbeat = some t) :
    s.lastHeartbeat = some t ∨ e = ConnEvent.heartbeat t := by
  cases e with
  | heartbeatSubscribed outcome =>
    exact Or.inl (by rw [← afterHeartbeatSubscribe_lastHeartbeat outcome s]; exact h)
  | ordersSubscribed outcome =>
    exact Or.inl (by rw [← afterOrdersSubscribe_lastHeartbeat outcome s]; exact h)
  | slept => exact Or.inl (by rw [← connectLoopTest_lastHeartbeat s]; exact h)
  | heartbeat now =>
    have h1 : some now = some t := h
    exact Or.inr (by rw [Option.some.inj h1])
  | tick timer now =>
    rcases heartbeatCheck_lastHeartbeat timer now s with h1 | h1
    · exact Or.inl (by rw [← h1]; exact h)
    · have h2 : (heartbeatCheck timer now s).lastHeartbeat = some t := h
      rw [h1.1] at h2
      exact absurd h2 (by simp)

theorem connRun_no_heartbeat :
    ∀ (events : List ConnEvent) (s : ConnectionState), s.lastHeartbeat = none →
      (∀ e ∈ events, e.isHeartbeat = false) → (connRun s events).lastHeartbeat = none := by
  intro events
  induction events with
  | nil => intro s h _; exact h
  | cons e rest ih =>
    intro s h hall
    apply ih (connStep s e) _ (fun e1 he1 => hall e1 (List.mem_cons_of_mem _ he1))
    cases hs : (connStep s e).lastHeartbeat with
    | none => rfl
    | some t =>
      rcases connStep_lastHeartbeat_some s e t hs with h1 | h1
      · rw [h] at h1; exact absurd h1 (by simp)
      · have := hall e (List.mem_cons_self _ _)
        rw [h1] at this
        exact absurd this (by simp [ConnEvent.isHeartbeat])

theorem connRun_lastHeartbeat_some :
    ∀ (events : List ConnEvent) (s : ConnectionState) (t : Nat),
      (connRun s events).lastHeartbeat = some t →
        s.lastHeartbeat = some t ∨ ConnEvent.heartbeat t ∈ events := by
  intro events
  induction events with
  | nil => intro s t h; exact Or.inl h
  | cons e rest ih =>
    intro s t h
    rcases ih (connStep s e) t h with h1 | h1
    · rcases connStep_lastHeartbeat_some s e t h1 with h2 | h2
      · exact Or.inl h2
      · exact Or.inr (by rw [h2]; exact List.mem_cons_self _ _)
    · exact Or.inr (List.mem_cons_of_mem _ h1)

theorem connRun_keeps_lastHeartbeat :
    ∀ (events : List ConnEvent) (s : ConnectionState),
      (∀ e ∈ events, e.isHeartbeat = false ∧ e.isTick = false) →
        (connRun s events).lastHeartbeat = s.lastHeartbeat := by
  intro events
  induction events with
  | nil => intro s _; rfl
  | cons e rest ih =>
    intro s hall
    have h1 := hall e (List.mem_cons_self _ _)
    have h2 := ih (connStep s e) (fun e1 he1 => hall e1 (List.mem_cons_of_mem _ he1))
    show (connRun (connStep s e) rest).lastHeartbeat = _
    rw [h2, connStep_lastHeartbeat s e h1.1 h1.2]

/-- C13, amended: a connect attempt whose two subscriptions succeed ends Connected and leaves
the last heartbeat as it was. No segment of the connect loop writes the last heartbeat,
whatever the outcome of a subscription; the heartbeat handler sets it to the time of the
heartbeat; a watchdog tick leaves it, or clears it and disconnects. So, in the states reached
from the constructor's state: the last heartbeat is undefined as long as no heartbeat has
arrived; a last heartbeat that is defined is the time of a heartbeat that arrived; and after a
heartbeat at `now` the last heartbeat is `now` until the next heartbeat or watchdog tick. -/
theorem afterOrdersSubscribe_spec (s : ConnectionState) (heartbeatId ordersId : String) :
    (afterOrdersSubscribe (.ok ordersId) s).isConnectedToMesh = true ∧
    (afterOrdersSubscribe (.ok ordersId) s).lastHeartbeat = s.lastHeartbeat ∧
    (afterHeartbeatSubscribe (.ok heartbeatId) s).lastHeartbeat = s.lastHeartbeat ∧
    (connectLoopTest s).lastHeartbeat = s.lastHeartbeat ∧
    (connectToMeshAsync s).lastHeartbeat = s.lastHeartbeat ∧
    (∀ err, (connectCatch err s).lastHeartbeat = s.lastHeartbeat) ∧
    (∀ now, (onHeartbeat now (afterOrdersSubscribe (.ok ordersId) s)).isConnectedToMesh = true ∧
      (onHeartbeat now (afterOrdersSubscribe (.ok ordersId) s)).lastHeartbeat = some now) ∧
    (∀ outcome, (afterHeartbeatSubscribe outcome s).lastHeartbeat = s.lastHeartbeat) ∧
    (∀ outcome, (afterOrdersSubscribe outcome s).lastHeartbeat = s.lastHeartbeat) ∧
    (afterSleep s).lastHeartbeat = s.lastHeartbeat ∧
    (∀ now, (onHeartbeat now s).lastHeartbeat = some now) ∧
    (∀ timer now,
      (heartbeatCheck timer now s).lastHeartbeat = s.lastHeartbeat ∨
        ((heartbeatCheck timer now s).lastHeartbeat = none ∧
          (heartbeatCheck timer now s).isConnectedToMesh = false)) ∧
    (∀ events : List ConnEvent, (∀ e ∈ events, e.isHeartbeat = false) →
      (connRun ConnectionState.init events).lastHeartbeat = none) ∧
    (∀ (events : List ConnEvent) (t : Nat),
      (connRun ConnectionState.init events).lastHeartbeat = some t →
        ConnEvent.heartbeat t ∈ events) ∧
    (∀ (events later : List ConnEvent) (now : Nat),
      (∀ e ∈ later, e.isHeartbeat = false ∧ e.isTick = false) →
        (connRun ConnectionState.init (events ++ ConnEvent.heartbeat now :: later)).lastHeartbeat
          = some now) := by
  have hinit : ConnectionState.init.lastHeartbeat = none := rfl
  refine ⟨?_, afterOrdersSubscribe_lastHeartbeat _ s, rfl, connectLoopTest_lastHeartbeat s,
    connectToMeshAsync_lastHeartbeat s, fun _ => rfl, ?_,
    fun outcome => afterHeartbeatSubscribe_lastHeartbeat outcome s,
    fun outcome => afterOrdersSubscribe_lastHeartbeat outcome s,
    connectLoopTest_lastHeartbeat s, fun _ => rfl,
    fun timer now => heartbeatCheck_lastHeartbeat timer now s, ?_, ?_, ?_⟩
  · rw [afterOrdersSubscribe_ok]
  · intro now
    rw [afterOrdersSubscribe_ok]
    exact ⟨rfl, rfl⟩
  · intro events hall
    exact connRun_no_heartbeat events _ hinit hall
  · intro events t ht
    rcases connRun_lastHeartbeat_some events _ t ht with h1 | h1
    · rw [hinit] at h1; exact absurd h1 (by simp)
    · exact h1
  · intro events later now hall
    have happ : connRun ConnectionState.init (events ++ ConnEvent.heartbeat now :: later)
        = connRun (onHeartbeat now (connRun ConnectionState.init events)) later := by
      simp [connRun, List.foldl_append, connStep]
    rw [happ, connRun_keeps_lastHeartbeat later _ hall]
    rfl

/-- C13 amended, at a concrete input: the first connect succeeds and the watchdog fires before
any heartbeat has arrived; then a heartbeat arrives at time 7000 and a reconnect succeeds. -/
theorem afterOrdersSubscribe_spec_witness :
    (connRun ConnectionState.init
      [.heartbeatSubscribed (.ok "0x1"), .ordersSubscribed (.ok "0x2"),
       .tick 0 6000]).lastHeartbeat = none ∧
    (connRun ConnectionState.init
      ([.heartbeatSubscribed (.ok "0x1"), .ordersSubscribed (.ok "0x2"), .tick 0 6000] ++
        ConnEvent.heartbeat 7000 ::
          [.heartbeatSubscribed (.ok "0x3"), .ordersSubscribed (.ok "0x4")])).lastHeartbeat
      = some 7000 := by
  obtain ⟨_, _, _, _, _, _, _, _, _, _, _, _, h1, _, h3⟩ :=
    afterOrdersSubscribe_spec ConnectionState.init "0x1" "0x2"
  refine ⟨h1 _ ?_, h3 _ _ 7000 ?_⟩
  · intro e he
    simp only [List.mem_cons, List.mem_singleton, List.not_mem_nil, or_false] at he
    rcases he with rfl | rfl | rfl <;> rfl
  · intro e he
    simp only [List.mem_cons, List.mem_singleton, List.not_mem_nil, or_false] at he
    rcases he with rfl | rfl <;> exact ⟨rfl, rfl⟩

end LaunchKit
